import Mathlib

/-!
Verification of the OHRBETS-GUI analysis core.

This file gives a shallow embedding of the event-stream analysis code of the
repository (OHRBETS_GUI_v2/python/analysis.py, animated_analysis.py,
generate_test_data.py) over exact rational arithmetic, and proves or refutes
the specified properties of that code.  Python floats are modelled as `ℚ`,
pandas data frames as lists of event rows, and the global random sources
(`random`, `np.random`) as explicit streams of draws, so that the stochastic
generator becomes a deterministic function of its entropy.
-/

/-! ## Time binning (analysis.py `compute_perievent_licking`,
`compute_trial_lick_timecourse`; animated_analysis.py
`create_animated_lick_heatmap`) -/

/-- Model of `np.arange(start, stop, step)` for a positive step: the values
`start + k * step` for `0 ≤ k < ⌈(stop - start) / step⌉`. -/
def npArange (start stop step : ℚ) : List ℚ :=
  (List.range (Int.toNat ⌈(stop - start) / step⌉)).map (fun k : ℕ => start + (k : ℚ) * step)

/-- Bin edges: `bins = np.arange(window[0], window[1] + bin_size, bin_size)`
(analysis.py line 268; the same expression appears in
compute_trial_lick_timecourse line 365 and animated_analysis.py line 53). -/
def binEdges (a b w : ℚ) : List ℚ := npArange a (b + w) w

/-- Bin centers: `bin_centers = bins[:-1] + bin_size/2` (analysis.py line 269). -/
def binCenters (a b w : ℚ) : List ℚ := (binEdges a b w).dropLast.map (fun x => x + w / 2)

/-- The number of bins produced by the binning step: one per consecutive pair
of edges, i.e. `len(bins) - 1` (equivalently `len(bin_centers)`). -/
def numBins (a b w : ℚ) : ℕ := (binEdges a b w).length - 1

/-- Count of the elements of `rel` lying in the half-open interval `[s, u)`,
as in `((rel_times >= bin_start) & (rel_times < bin_end)).sum()`
(analysis.py line 289). -/
def countIn (rel : List ℚ) (s u : ℚ) : ℕ :=
  (rel.filter (fun x => decide (s ≤ x ∧ x < u))).length

/-- Per-reference-event binned lick counts: for each consecutive pair of bin
edges, the number of relative lick times in `[bin_start, bin_end)`
(analysis.py lines 288-290, looping over `zip(bins[:-1], bins[1:])`;
`zip` already drops the unmatched last edge, so zipping with the tail is the
same pairing). -/
def perievent_bin_counts (rel : List ℚ) (a b w : ℚ) : List ℕ :=
  ((binEdges a b w).zip (binEdges a b w).tail).map (fun p => countIn rel p.1 p.2)

lemma length_npArange (start stop step : ℚ) :
    (npArange start stop step).length = Int.toNat ⌈(stop - start) / step⌉ := by
  rw [npArange, List.length_map, List.length_range]

lemma binEdges_length (a b w : ℚ) (hw : 0 < w) (hab : a < b) :
    ((binEdges a b w).length : ℤ) = ⌈(b - a) / w⌉ + 1 := by
  have hw' : w ≠ 0 := ne_of_gt hw
  have hdiv : (b + w - a) / w = (b - a) / w + 1 := by
    field_simp
    ring
  have hceil : ⌈(b + w - a) / w⌉ = ⌈(b - a) / w⌉ + 1 := by
    rw [hdiv, Int.ceil_add_one]
  have hpos : (0 : ℚ) < (b - a) / w := div_pos (by linarith) hw
  have hcpos : 0 < ⌈(b - a) / w⌉ := Int.ceil_pos.mpr hpos
  rw [binEdges, length_npArange, hceil]
  have hnn : (0 : ℤ) ≤ ⌈(b - a) / w⌉ + 1 := by linarith
  exact Int.toNat_of_nonneg hnn

lemma numBins_cast (a b w : ℚ) (hw : 0 < w) (hab : a < b) :
    (numBins a b w : ℤ) = ⌈(b - a) / w⌉ := by
  have h := binEdges_length a b w hw hab
  have hpos : 0 < ⌈(b - a) / w⌉ :=
    Int.ceil_pos.mpr (div_pos (by linarith) hw)
  rw [numBins]
  omega

lemma binEdges_concrete_length : (binEdges (-2) 5 (1/10)).length = 71 := by
  have h : ((binEdges (-2) 5 (1/10)).length : ℤ) = ⌈((5 : ℚ) - (-2)) / (1/10)⌉ + 1 :=
    binEdges_length (-2) 5 (1/10) (by norm_num) (by norm_num)
  have h2 : ⌈((5 : ℚ) - (-2)) / (1/10)⌉ = 70 := by norm_num
  omega

lemma numBins_concrete : numBins (-2) 5 (1/10) = 70 := by
  rw [numBins, binEdges_concrete_length]

/-- CLAIM C3.  For every bin width `w > 0` and window `[a, b]` with `a < b`,
the binning step produces exactly `⌈(b - a) / w⌉` bins (`⌈(b-a)/w⌉ + 1`
edges, and one center per bin); concretely, window `(-2, 5)` with bin width
`0.1` gives exactly 70 bins (70 centers, 71 edges). -/
theorem bin_count_eq_ceil :
    (∀ a b w : ℚ, 0 < w → a < b →
      (numBins a b w : ℤ) = ⌈(b - a) / w⌉
      ∧ ((binEdges a b w).length : ℤ) = ⌈(b - a) / w⌉ + 1
      ∧ (binCenters a b w).length = numBins a b w)
    ∧ numBins (-2) 5 (1/10) = 70
    ∧ (binEdges (-2) 5 (1/10)).length = 71
    ∧ (binCenters (-2) 5 (1/10)).length = 70 := by
  have hcent : ∀ a b w : ℚ, (binCenters a b w).length = numBins a b w := by
    intro a b w
    simp [binCenters, numBins, List.length_dropLast]
  refine ⟨fun a b w hw hab => ⟨numBins_cast a b w hw hab, binEdges_length a b w hw hab,
    hcent a b w⟩, numBins_concrete, binEdges_concrete_length, ?_⟩
  rw [hcent, numBins_concrete]

/-- Witness for `bin_count_eq_ceil`: the universally quantified part applied at
the concrete window `(0, 1)` with bin width `1`. -/
theorem bin_count_eq_ceil_witness :
    (numBins 0 1 1 : ℤ) = ⌈((1 : ℚ) - 0) / 1⌉ :=
  (bin_count_eq_ceil.1 0 1 1 (by norm_num) (by norm_num)).1

lemma map_range_succ_zip {α : Type} (m : ℕ) (f : ℕ → α) :
    (((List.range (m + 1)).map f).zip ((List.range (m + 1)).map f).tail)
      = (List.range m).map (fun i => (f i, f (i + 1))) := by
  apply List.ext_getElem
  · simp only [List.length_zip, List.length_tail, List.length_map, List.length_range]
    omega
  · intro i h1 h2
    simp [List.getElem_zip, List.getElem_tail, List.getElem_map, List.getElem_range]

lemma binEdges_eq_map (a b w : ℚ) :
    binEdges a b w
      = (List.range ((binEdges a b w).length)).map (fun k : ℕ => a + (k : ℚ) * w) := by
  rw [binEdges, npArange, List.length_map, List.length_range]

lemma perievent_bin_counts_eq_range (rel : List ℚ) (a b w : ℚ) :
    perievent_bin_counts rel a b w
      = (List.range (numBins a b w)).map
          (fun i : ℕ => countIn rel (a + (i : ℚ) * w) (a + ((i : ℚ) + 1) * w)) := by
  rcases hN : (binEdges a b w).length with _ | m
  · have hnil : binEdges a b w = [] := List.length_eq_zero.mp hN
    rw [perievent_bin_counts, numBins, hnil]
    simp
  · have hmap : binEdges a b w = (List.range (m + 1)).map (fun k : ℕ => a + (k : ℚ) * w) := by
      conv_lhs => rw [binEdges_eq_map a b w, hN]
    rw [perievent_bin_counts, numBins, hN, hmap,
      map_range_succ_zip m (fun k : ℕ => a + (k : ℚ) * w), List.map_map]
    simp only [Nat.add_sub_cancel]
    apply List.map_congr_left
    intro i _
    simp only [Function.comp_apply]
    push_cast
    ring_nf

lemma countIn_cons (x : ℚ) (xs : List ℚ) (s u : ℚ) :
    countIn (x :: xs) s u = countIn xs s u + (if s ≤ x ∧ x < u then 1 else 0) := by
  by_cases h : s ≤ x ∧ x < u
  · simp [countIn, List.filter_cons, h]
  · simp [countIn, List.filter_cons, h]

lemma countIn_degenerate (rel : List ℚ) (s u : ℚ) (h : u ≤ s) : countIn rel s u = 0 := by
  induction rel with
  | nil => rfl
  | cons x xs ih =>
    rw [countIn_cons, ih]
    have hx : ¬(s ≤ x ∧ x < u) := by
      rintro ⟨h1, h2⟩
      linarith
    simp [hx]

lemma countIn_split (s t u : ℚ) (hst : s ≤ t) (htu : t ≤ u) (rel : List ℚ) :
    countIn rel s u = countIn rel s t + countIn rel t u := by
  induction rel with
  | nil => rfl
  | cons x xs ih =>
    rw [countIn_cons, countIn_cons, countIn_cons, ih]
    by_cases h1 : s ≤ x ∧ x < t
    · have h2 : s ≤ x ∧ x < u := ⟨h1.1, lt_of_lt_of_le h1.2 htu⟩
      have h3 : ¬(t ≤ x ∧ x < u) := fun hc => absurd h1.2 (not_lt.mpr hc.1)
      rw [if_pos h1, if_pos h2, if_neg h3]
      omega
    · by_cases h2 : t ≤ x ∧ x < u
      · have h4 : s ≤ x ∧ x < u := ⟨le_trans hst h2.1, h2.2⟩
        rw [if_neg h1, if_pos h2, if_pos h4]
        omega
      · have h5 : ¬(s ≤ x ∧ x < u) := by
          rintro ⟨hc1, hc2⟩
          rcases lt_or_le x t with hx | hx
          · exact h1 ⟨hc1, hx⟩
          · exact h2 ⟨hx, hc2⟩
        rw [if_neg h1, if_neg h2, if_neg h5]
        omega

lemma sum_counts_range (rel : List ℚ) (a w : ℚ) (hw : 0 ≤ w) (m : ℕ) :
    ((List.range m).map
      (fun i : ℕ => countIn rel (a + (i : ℚ) * w) (a + ((i : ℚ) + 1) * w))).sum
      = countIn rel a (a + (m : ℚ) * w) := by
  induction m with
  | zero =>
    have h0 : a + ((0 : ℕ) : ℚ) * w = a := by push_cast; ring
    rw [h0]
    simp [countIn_degenerate rel a a (le_refl a)]
  | succ n ih =>
    rw [List.range_succ, List.map_append, List.sum_append]
    simp only [List.map_cons, List.map_nil, List.sum_cons, List.sum_nil]
    rw [ih]
    have h1 : a ≤ a + (n : ℚ) * w := by
      have hnw : (0 : ℚ) ≤ (n : ℚ) * w := mul_nonneg (Nat.cast_nonneg n) hw
      linarith
    have h2 : a + (n : ℚ) * w ≤ a + ((n : ℚ) + 1) * w := by
      nlinarith
    have hsp := countIn_split a (a + (n : ℚ) * w) (a + ((n : ℚ) + 1) * w) h1 h2 rel
    have hcast : a + (((n + 1 : ℕ)) : ℚ) * w = a + ((n : ℚ) + 1) * w := by
      push_cast; ring
    rw [hcast]
    omega

/-- CLAIM C4 (amended).  Each relative response time in `[a, a + numBins·w)`
falls in exactly one half-open bin, and the per-bin counts sum to the number
of relative times in `[a, a + numBins·w)`; this interval covers all of
`[a, b)` (second conjunct).  A response at exactly the upper window edge `b`
is counted in no bin when `w` divides `b - a` (see the counterexample). -/
theorem perievent_bin_sum_conservation :
    ∀ (rel : List ℚ) (a b w : ℚ), 0 < w → a < b →
      (perievent_bin_counts rel a b w).sum
        = countIn rel a (a + (numBins a b w : ℚ) * w)
      ∧ b ≤ a + (numBins a b w : ℚ) * w
      ∧ ∀ x : ℚ, a ≤ x → x < a + (numBins a b w : ℚ) * w →
          (perievent_bin_counts [x] a b w).sum = 1 := by
  intro rel a b w hw hab
  have hsum : ∀ l : List ℚ,
      (perievent_bin_counts l a b w).sum
        = countIn l a (a + (numBins a b w : ℚ) * w) := by
    intro l
    rw [perievent_bin_counts_eq_range, sum_counts_range l a w (le_of_lt hw)]
  refine ⟨hsum rel, ?_, ?_⟩
  · have hcast := numBins_cast a b w hw hab
    have hle : (b - a) / w ≤ ((⌈(b - a) / w⌉ : ℤ) : ℚ) := Int.le_ceil _
    rw [div_le_iff₀ hw] at hle
    have hq : ((numBins a b w : ℕ) : ℚ) = ((⌈(b - a) / w⌉ : ℤ) : ℚ) := by
      exact_mod_cast congrArg (fun z : ℤ => (z : ℚ)) hcast
    rw [hq]
    linarith
  · intro x hax hxu
    rw [hsum [x], countIn]
    simp [List.filter_cons, hax, hxu]

/-- Witness for `perievent_bin_sum_conservation`: the theorem applied at the
concrete window `(-2, 5)`, width `1/10`, with a single response at time `0`. -/
theorem perievent_bin_sum_conservation_witness :
    (perievent_bin_counts [(0 : ℚ)] (-2) 5 (1/10)).sum
      = countIn [(0 : ℚ)] (-2) ((-2) + (numBins (-2) 5 (1/10) : ℚ) * (1/10))
    ∧ (perievent_bin_counts [(0 : ℚ)] (-2) 5 (1/10)).sum = 1 := by
  have h := perievent_bin_sum_conservation [(0 : ℚ)] (-2) 5 (1/10)
    (by norm_num) (by norm_num)
  refine ⟨h.1, h.2.2 0 (by norm_num) ?_⟩
  rw [numBins_concrete]
  norm_num

/-- Counterexample to CLAIM C4 as stated: with window `[-2, 5]` and bin width
`0.1` (where `0.1` divides the window length exactly), a response whose
relative time is exactly `5` lies within the window `[a, b]` but is counted in
no bin, so the per-bin counts sum to `0`, not `1`. -/
theorem perievent_boundary_response_lost :
    (perievent_bin_counts [(5 : ℚ)] (-2) 5 (1/10)).sum = 0
    ∧ ((-2 : ℚ) ≤ 5 ∧ (5 : ℚ) ≤ 5)
    ∧ (0 : ℕ) ≠ 1 := by
  refine ⟨?_, ⟨by norm_num, le_refl _⟩, by decide⟩
  rw [perievent_bin_counts_eq_range, sum_counts_range _ _ _ (by norm_num : (0:ℚ) ≤ 1/10)]
  rw [numBins_concrete, countIn]
  simp only [List.filter_cons, List.filter_nil, decide_eq_true_eq]
  norm_num

/-! ## Discrimination index (analysis.py `plot_learning_curve`,
lines 1411-1417) -/

/-- Discrimination index over the anticipatory lick sums of a trial bin:
`(bin_cs_plus_licks - bin_cs_minus_licks) / total_licks` when
`total_licks > 0`, else `0`. -/
def discrimination_index (csPlusLicks csMinusLicks : ℕ) : ℚ :=
  if 0 < csPlusLicks + csMinusLicks then
    ((csPlusLicks : ℚ) - (csMinusLicks : ℚ)) / ((csPlusLicks : ℚ) + (csMinusLicks : ℚ))
  else 0

/-- CLAIM C5.  For all non-negative treatment and control sums the
discrimination index equals `(t - c) / (t + c)` when the sums are not both
zero, is exactly `0` when both are zero, is exactly `1` when the control sum
is zero and the treatment sum positive, and always lies in `[-1, 1]`. -/
theorem discrimination_index_spec :
    ∀ t c : ℕ,
      (0 < t + c →
        discrimination_index t c = ((t : ℚ) - (c : ℚ)) / ((t : ℚ) + (c : ℚ)))
      ∧ (t = 0 → c = 0 → discrimination_index t c = 0)
      ∧ (c = 0 → 0 < t → discrimination_index t c = 1)
      ∧ (-1 ≤ discrimination_index t c ∧ discrimination_index t c ≤ 1) := by
  intro t c
  refine ⟨fun h => if_pos h, fun ht hc => ?_, fun hc ht => ?_, ?_⟩
  · rw [discrimination_index, if_neg]
    omega
  · subst hc
    rw [discrimination_index, if_pos (by omega)]
    push_cast
    rw [sub_zero, add_zero]
    exact div_self (Nat.cast_ne_zero.mpr (by omega))
  · by_cases h : 0 < t + c
    · rw [discrimination_index, if_pos h]
      have hden : (0 : ℚ) < (t : ℚ) + (c : ℚ) := by
        have : (0 : ℚ) < ((t + c : ℕ) : ℚ) := by exact_mod_cast h
        push_cast at this
        linarith
      constructor
      · rw [le_div_iff₀ hden]
        have hc0 : (0 : ℚ) ≤ (t : ℚ) := Nat.cast_nonneg t
        linarith
      · rw [div_le_one hden]
        have hc0 : (0 : ℚ) ≤ (c : ℚ) := Nat.cast_nonneg c
        linarith
    · rw [discrimination_index, if_neg h]
      norm_num

/-- Witness for `discrimination_index_spec`: applied at treatment sum 3,
control sum 1. -/
theorem discrimination_index_spec_witness :
    discrimination_index 3 1 = ((3 : ℚ) - (1 : ℚ)) / ((3 : ℚ) + (1 : ℚ)) :=
  (discrimination_index_spec 3 1).1 (by omega)

/-! ## Aggregate SEM (analysis.py `compute_trial_lick_timecourse`,
lines 415-420) -/

/-- Mean of a list of rationals, as `np.mean` (sum divided by length; the
code only applies it to non-empty collections). -/
def listMean (l : List ℚ) : ℚ := l.sum / (l.length : ℚ)

/-- Population variance: the square of `np.std(values, axis=0)` per bin,
with numpy's default `ddof = 0` (divide by `n`, not `n - 1`). -/
def popVariance (l : List ℚ) : ℚ :=
  ((l.map (fun x => (x - listMean l) ^ 2)).sum) / (l.length : ℚ)

/-- Square of the per-bin SEM of analysis.py line 417:
`np.std(values, axis=0) / np.sqrt(n) if n > 0 else zeros`.  The square root
is the only irrational operation in the source expression; since
`y = std/sqrt(n)` is non-negative, `y` is characterised by `y^2 = var/n`,
and in particular `y = 0` exactly when `y^2 = 0`, so the SEM claims are
stated on the square. -/
def semSq (l : List ℚ) : ℚ :=
  if 0 < l.length then popVariance l / (l.length : ℚ) else 0

/-- CLAIM C6.  The aggregate per-bin standard error is the population (not
sample) standard deviation over the n per-trial values divided by `sqrt n`
(stated on squares: `semSq = popVariance / n`), and for `n ≤ 1` — in
particular a bin populated by exactly one trial — it is exactly `0` rather
than undefined.  The concrete values on `[0, 2]` separate the population
convention (variance 1) from the sample convention (which would give 2). -/
theorem sem_population_and_degenerate :
    (∀ l : List ℚ, l.length ≤ 1 → semSq l = 0)
    ∧ (∀ l : List ℚ, 0 < l.length → semSq l * (l.length : ℚ) = popVariance l)
    ∧ popVariance [0, 2] = 1
    ∧ semSq [0, 2] = 1/2 := by
  refine ⟨?_, ?_, ?_, ?_⟩
  · intro l hl
    match l, hl with
    | [], _ => rfl
    | [x], _ =>
      have hm : listMean [x] = x := by
        simp [listMean]
      have hv : popVariance [x] = 0 := by
        simp [popVariance, hm]
      simp [semSq, hv]
  · intro l hl
    rw [semSq, if_pos hl]
    have hne : ((l.length : ℕ) : ℚ) ≠ 0 := Nat.cast_ne_zero.mpr (by omega)
    field_simp
  · have hm : listMean [0, 2] = 1 := by
      norm_num [listMean]
    norm_num [popVariance, hm]
  · have hm : listMean [0, 2] = 1 := by
      norm_num [listMean]
    norm_num [semSq, popVariance, hm]

/-- Witness for `sem_population_and_degenerate`: a bin populated by exactly
one trial (value 5) has SEM exactly 0. -/
theorem sem_population_and_degenerate_witness :
    semSq [(5 : ℚ)] = 0 :=
  sem_population_and_degenerate.1 [(5 : ℚ)] (by decide)

/-! ## Significance bucketing (analysis.py `plot_trial_comparison`,
lines 890, 1005, 1115 and 1225) -/

/-- Significance bucket at the total-licks call site (analysis.py line 890):
`"***" if p_value < 0.001 else "**" if p_value < 0.01 else "*" if
p_value < 0.05 else "ns"`. -/
def sig_symbol_total_licks (p : ℚ) : String :=
  if p < 0.001 then "***" else if p < 0.01 then "**" else if p < 0.05 then "*" else "ns"

/-- Significance bucket at the lick-latency call site (analysis.py line 1005). -/
def sig_symbol_latency (p : ℚ) : String :=
  if p < 0.001 then "***" else if p < 0.01 then "**" else if p < 0.05 then "*" else "ns"

/-- Significance bucket at the anticipatory-licking call site (analysis.py
line 1115). -/
def sig_symbol_anticipatory (p : ℚ) : String :=
  if p < 0.001 then "***" else if p < 0.01 then "**" else if p < 0.05 then "*" else "ns"

/-- Significance bucket at the post-odor-licking call site (analysis.py
line 1225). -/
def sig_symbol_post_odor (p : ℚ) : String :=
  if p < 0.001 then "***" else if p < 0.01 then "**" else if p < 0.05 then "*" else "ns"

/-- Modelled from the spec: the single pure bucketing function
`p<0.001 → ***, p<0.01 → **, p<0.05 → *, else ns` that all call sites are
required to agree with. -/
def sig_bucket (p : ℚ) : String :=
  if p < 0.001 then "***" else if p < 0.01 then "**" else if p < 0.05 then "*" else "ns"

/-- CLAIM C10.  The significance bucketing is one pure function of the
p-value, every call site computes exactly that function, and the function
maps the four p-value ranges to `***`, `**`, `*`, `ns` respectively. -/
theorem sig_bucket_uniform :
    ∀ p : ℚ,
      sig_symbol_total_licks p = sig_bucket p
      ∧ sig_symbol_latency p = sig_bucket p
      ∧ sig_symbol_anticipatory p = sig_bucket p
      ∧ sig_symbol_post_odor p = sig_bucket p
      ∧ (p < 0.001 → sig_bucket p = "***")
      ∧ (0.001 ≤ p → p < 0.01 → sig_bucket p = "**")
      ∧ (0.01 ≤ p → p < 0.05 → sig_bucket p = "*")
      ∧ (0.05 ≤ p → sig_bucket p = "ns") := by
  intro p
  refine ⟨rfl, rfl, rfl, rfl, fun h => if_pos h, fun h1 h2 => ?_, fun h1 h2 => ?_, fun h1 => ?_⟩
  · rw [sig_bucket, if_neg (not_lt.mpr h1), if_pos h2]
  · have ha : ¬(p < 0.001) := not_lt.mpr (le_trans (by norm_num) h1)
    rw [sig_bucket, if_neg ha, if_neg (not_lt.mpr h1), if_pos h2]
  · have ha : ¬(p < 0.001) := not_lt.mpr (le_trans (by norm_num) h1)
    have hb : ¬(p < 0.01) := not_lt.mpr (le_trans (by norm_num) h1)
    rw [sig_bucket, if_neg ha, if_neg hb, if_neg (not_lt.mpr h1)]

/-- Witness for `sig_bucket_uniform`: at `p = 1/2` every call site yields
`ns`. -/
theorem sig_bucket_uniform_witness :
    sig_symbol_total_licks (1/2) = sig_bucket (1/2)
    ∧ sig_bucket (1/2) = "ns" :=
  ⟨(sig_bucket_uniform (1/2)).1, (sig_bucket_uniform (1/2)).2.2.2.2.2.2.2 (by norm_num)⟩

/-! ## Event rows and data frames -/

/-- EVENT_NAMES mapping (generate_test_data.py lines 20-28). -/
def EVENT_NAMES : ℕ → String
  | 1 => "Trial Start"
  | 2 => "Trial End"
  | 3 => "Odor On"
  | 4 => "Odor Off"
  | 5 => "Reward On"
  | 6 => "Reward Off"
  | 7 => "Lick"
  | _ => ""

/-- One row of the flat event table: `(event_code, event_name, timestamp,
trial_number, trial_type)`.  The `trial_type` field is meaningful only when
the owning frame's `hasTrialType` flag is set. -/
structure Ev where
  event_code : ℕ
  event_name : String
  timestamp : ℚ
  trial_number : ℕ
  trial_type : ℕ
deriving DecidableEq

/-- A loaded event table; `hasTrialType` models whether the optional
`trial_type` column is present (`'trial_type' in df.columns`). -/
structure DF where
  rows : List Ev
  hasTrialType : Bool
deriving DecidableEq

/-- Reward-based trial-type inference of analysis.py `main` (lines
1740-1746): a trial is CS+ (type 1) iff it contains at least one reward-on
(code 5) event, else CS- (type 2). -/
def inferTrialType (rows : List Ev) (trial : ℕ) : ℕ :=
  if 0 < (rows.filter (fun e => decide (e.trial_number = trial ∧ e.event_code = 5))).length
  then 1 else 2

/-- The trial-type derivation step of analysis.py `main` (lines 1731-1749):
when the file has no `trial_type` column, types are inferred from reward
events and written into the frame; otherwise the frame is used as loaded and
no inference happens. -/
def main_derive_trial_types (df : DF) : DF :=
  if df.hasTrialType then df
  else
    { rows := df.rows.map
        (fun e => { e with trial_type := inferTrialType df.rows e.trial_number }),
      hasTrialType := true }

lemma inferTrialType_eq_one_iff (rows : List Ev) (t : ℕ) :
    inferTrialType rows t = 1
      ↔ ∃ r ∈ rows, r.trial_number = t ∧ r.event_code = 5 := by
  rw [inferTrialType]
  by_cases hP : ∃ r ∈ rows, r.trial_number = t ∧ r.event_code = 5
  · obtain ⟨r, hr, hc⟩ := hP
    have hmem : r ∈ rows.filter (fun e => decide (e.trial_number = t ∧ e.event_code = 5)) :=
      List.mem_filter.mpr ⟨hr, by simp [hc.1, hc.2]⟩
    rw [if_pos (List.length_pos.mpr (List.ne_nil_of_mem hmem))]
    simp only [true_iff]
    exact ⟨r, hr, hc⟩
  · have hnil : rows.filter (fun e => decide (e.trial_number = t ∧ e.event_code = 5)) = [] := by
      rw [List.filter_eq_nil_iff]
      intro a ha
      simp only [decide_eq_true_eq]
      intro hc
      exact hP ⟨a, ha, hc⟩
    rw [hnil]
    simp [hP]

lemma inferTrialType_eq_two_iff (rows : List Ev) (t : ℕ) :
    inferTrialType rows t = 2
      ↔ ¬ ∃ r ∈ rows, r.trial_number = t ∧ r.event_code = 5 := by
  rw [← inferTrialType_eq_one_iff rows t, inferTrialType]
  by_cases h : 0 < (rows.filter (fun e => decide (e.trial_number = t ∧ e.event_code = 5))).length
  · rw [if_pos h]
    norm_num
  · rw [if_neg h]
    norm_num

/-- CLAIM C8.  Without an explicit `trial_type` column, the inferred
condition of every row's trial is CS+ (1) iff the trial contains a RewardOn
event and CS- (2) otherwise; with an explicit column, the frame is used
unchanged and no inference is applied. -/
theorem trial_type_inference_spec :
    ∀ df : DF,
      (df.hasTrialType = false →
        ∀ e ∈ (main_derive_trial_types df).rows,
          (e.trial_type = 1
            ↔ ∃ r ∈ df.rows, r.trial_number = e.trial_number ∧ r.event_code = 5)
          ∧ (e.trial_type = 2
            ↔ ¬ ∃ r ∈ df.rows, r.trial_number = e.trial_number ∧ r.event_code = 5))
      ∧ (df.hasTrialType = true → main_derive_trial_types df = df) := by
  intro df
  constructor
  · intro hft e he
    rw [main_derive_trial_types, if_neg (by simp [hft])] at he
    simp only [List.mem_map] at he
    obtain ⟨e0, he0, rfl⟩ := he
    constructor
    · simpa using inferTrialType_eq_one_iff df.rows e0.trial_number
    · simpa using inferTrialType_eq_two_iff df.rows e0.trial_number
  · intro hft
    rw [main_derive_trial_types, if_pos hft]

/-- Concrete frame without a trial_type column: trial 1 contains a RewardOn,
trial 2 does not. -/
def c8df : DF :=
  ⟨[⟨1, "Trial Start", 0, 1, 0⟩, ⟨5, "Reward On", 2, 1, 0⟩,
    ⟨1, "Trial Start", 3, 2, 0⟩], false⟩

/-- Witness for `trial_type_inference_spec`: applied to `c8df` and its first
derived row (trial 1, inferred CS+). -/
theorem trial_type_inference_spec_witness :
    (⟨1, "Trial Start", 0, 1, 1⟩ : Ev).trial_type = 1
      ↔ ∃ r ∈ c8df.rows,
          r.trial_number = (⟨1, "Trial Start", 0, 1, 1⟩ : Ev).trial_number
          ∧ r.event_code = 5 := by
  have h := (trial_type_inference_spec c8df).1 rfl (⟨1, "Trial Start", 0, 1, 1⟩ : Ev)
    (List.mem_cons_self _ _)
  exact h.1

/-! ## Session metrics and the insufficient-data guards
(analysis.py `compute_session_metrics` lines 16-62 and
`plot_trial_comparison` lines 786-794) -/

/-- Modelled from the spec: the error taxonomy of the design document
(`DataError`, `IncompleteTrialWarning`, `InsufficientDataError`,
`ConfigurationError`).  The source under analysis defines no such exception
types; they are introduced only so that the claimed raising behaviour is
expressible in the result type. -/
inductive AnalysisError where
  | dataError
  | incompleteTrialWarning
  | insufficientData
  | configurationError
deriving DecidableEq

/-- Maximum of a list of rationals (python `max`), `none` on the empty list. -/
def maxQ : List ℚ → Option ℚ
  | [] => none
  | x :: xs =>
    match maxQ xs with
    | none => some x
    | some m => some (max x m)

/-- Minimum of a list of rationals (python `min`), `none` on the empty list. -/
def minQ : List ℚ → Option ℚ
  | [] => none
  | x :: xs =>
    match minQ xs with
    | none => some x
    | some m => some (min x m)

/-- Ascending sort of natural numbers (pandas sorts group keys). -/
def sortNat (l : List ℕ) : List ℕ := List.insertionSort (fun a b => a ≤ b) l

/-- Sizes of the per-trial groups `licks.groupby('trial_number').size()`:
one count per distinct trial number, keys ascending. -/
def groupSizesByTrial (licks : List Ev) : List ℕ :=
  (sortNat (licks.map (fun e => e.trial_number)).dedup).map
    (fun t => (licks.filter (fun e => decide (e.trial_number = t))).length)

/-- Mean of a pandas integer series, as a rational. -/
def seriesMean (l : List ℕ) : ℚ := ((l.sum : ℕ) : ℚ) / (l.length : ℚ)

/-- Median of a pandas integer series: the middle of the sorted values, or
the mean of the two middle values for even length. -/
def seriesMedian (l : List ℕ) : ℚ :=
  if l.length % 2 = 1 then (((sortNat l).getD (l.length / 2) 0 : ℕ) : ℚ)
  else ((((sortNat l).getD (l.length / 2 - 1) 0 : ℕ) : ℚ)
    + (((sortNat l).getD (l.length / 2) 0 : ℕ) : ℚ)) / 2

/-- The metrics dict of `compute_session_metrics`; keys that the python code
sets only conditionally are `Option`s. -/
structure SessionMetrics where
  total_trials : ℕ
  cs_plus_trials : Option ℕ
  cs_minus_trials : Option ℕ
  total_licks : Option ℕ
  mean_licks_per_trial : Option ℚ
  median_licks_per_trial : Option ℚ
  licks_cs_plus : Option ℕ
  licks_cs_minus : Option ℕ
  t_stat : Option ℚ
  p_value : Option ℚ
  session_duration : Option ℚ
deriving DecidableEq

/-- compute_session_metrics (analysis.py lines 16-62), with the scipy
two-sample t-test `stats.ttest_ind` passed as an oracle returning
`(t_statistic, p_value)`.  The t-test runs only when both conditions have at
least one lick (line 50); otherwise the `t_stat`/`p_value` keys are simply
absent.  The python function raises no exception on any input; the `Except`
result type admits the spec's taxonomy so the claimed raising behaviour can
be stated, and this model never produces `Except.error`. -/
def compute_session_metrics (ttest : List ℕ → List ℕ → ℚ × ℚ) (df : DF) :
    Except AnalysisError SessionMetrics :=
  let trial_starts := df.rows.filter (fun e => decide (e.event_code = 1))
  let licks := df.rows.filter (fun e => decide (e.event_code = 7))
  let licksPlus := licks.filter (fun e => decide (e.trial_type = 1))
  let licksMinus := licks.filter (fun e => decide (e.trial_type = 2))
  let haveLicks := decide (0 < licks.length)
  let doTT := df.hasTrialType && haveLicks && decide (0 < licksPlus.length)
    && decide (0 < licksMinus.length)
  let tp := if doTT
    then some (ttest (groupSizesByTrial licksPlus) (groupSizesByTrial licksMinus))
    else none
  Except.ok
    { total_trials := trial_starts.length
      cs_plus_trials := if df.hasTrialType then
          some (trial_starts.filter (fun e => decide (e.trial_type = 1))).length else none
      cs_minus_trials := if df.hasTrialType then
          some (trial_starts.filter (fun e => decide (e.trial_type = 2))).length else none
      total_licks := if haveLicks then some licks.length else none
      mean_licks_per_trial := if haveLicks then
          some (seriesMean (groupSizesByTrial licks)) else none
      median_licks_per_trial := if haveLicks then
          some (seriesMedian (groupSizesByTrial licks)) else none
      licks_cs_plus := if df.hasTrialType && haveLicks then some licksPlus.length else none
      licks_cs_minus := if df.hasTrialType && haveLicks then some licksMinus.length else none
      t_stat := tp.map (fun x => x.1)
      p_value := tp.map (fun x => x.2)
      session_duration := if 0 < df.rows.length then
          some ((maxQ (df.rows.map (fun e => e.timestamp))).getD 0
            - (minQ (df.rows.map (fun e => e.timestamp))).getD 0) else none }

/-- Early-return guards of `plot_trial_comparison` (analysis.py lines
786-794): the statistical comparisons are reached only when the frame has a
`trial_type` column and each condition contributes at least one trial
number; otherwise the function returns its empty figure without computing
any test. -/
def plot_trial_comparison_reaches_tests (df : DF) : Bool :=
  df.hasTrialType
    && !((df.rows.filter (fun e => decide (e.trial_type = 1))).map
          (fun e => e.trial_number)).dedup.isEmpty
    && !((df.rows.filter (fun e => decide (e.trial_type = 2))).map
          (fun e => e.trial_number)).dedup.isEmpty

lemma licks_guard_helper (df : DF)
    (h : ((df.rows.filter (fun e => decide (e.event_code = 7))).filter
            (fun e => decide (e.trial_type = 2))).length = 0 ∨
         ((df.rows.filter (fun e => decide (e.event_code = 7))).filter
            (fun e => decide (e.trial_type = 1))).length = 0) :
    df.hasTrialType = true →
      0 < (df.rows.filter (fun e => decide (e.event_code = 7))).length →
      0 < (df.rows.filter
            (fun a => decide (a.trial_type = 1) && decide (a.event_code = 7))).length →
      ∀ a ∈ df.rows, a.trial_type = 2 → ¬ a.event_code = 7 := by
  intro _ _ hplus a ha h2 h7
  rcases h with h | h
  · have hmem : a ∈ (df.rows.filter (fun e => decide (e.event_code = 7))).filter
        (fun e => decide (e.trial_type = 2)) :=
      List.mem_filter.mpr ⟨List.mem_filter.mpr ⟨ha, by simp [h7]⟩, by simp [h2]⟩
    have hlen := List.length_pos.mpr (List.ne_nil_of_mem hmem)
    omega
  · obtain ⟨b, hb⟩ := List.exists_mem_of_length_pos hplus
    have hb2 := List.mem_filter.mp hb
    have hcond := hb2.2
    simp only [Bool.and_eq_true, decide_eq_true_eq] at hcond
    have hbb : b ∈ (df.rows.filter (fun e => decide (e.event_code = 7))).filter
        (fun e => decide (e.trial_type = 1)) :=
      List.mem_filter.mpr ⟨List.mem_filter.mpr ⟨hb2.1, by simp [hcond.2]⟩, by simp [hcond.1]⟩
    have hlen := List.length_pos.mpr (List.ne_nil_of_mem hbb)
    omega

/-- CLAIM C7 (amended).  When one condition has no lick events (in
particular when it has no trials at all), `compute_session_metrics` returns
normally with the `t_stat`/`p_value` keys absent — it skips the t-test
rather than raising a typed `InsufficientDataError` — and
`plot_trial_comparison` returns before reaching any statistical test when a
condition has no trials. -/
theorem insufficient_data_skips_tests :
    ∀ (ttest : List ℕ → List ℕ → ℚ × ℚ) (df : DF),
      ((((df.rows.filter (fun e => decide (e.event_code = 7))).filter
            (fun e => decide (e.trial_type = 2))).length = 0 ∨
        ((df.rows.filter (fun e => decide (e.event_code = 7))).filter
            (fun e => decide (e.trial_type = 1))).length = 0) →
        ∃ m, compute_session_metrics ttest df = .ok m
          ∧ m.t_stat = none ∧ m.p_value = none)
      ∧ (((df.rows.filter (fun e => decide (e.trial_type = 2))).length = 0 ∨
          (df.rows.filter (fun e => decide (e.trial_type = 1))).length = 0) →
          plot_trial_comparison_reaches_tests df = false) := by
  intro ttest df
  constructor
  · intro h
    refine ⟨_, rfl, ?_, ?_⟩ <;>
      (simp [compute_session_metrics]; exact licks_guard_helper df h)
  · intro h
    rcases h with h | h <;>
      simp [plot_trial_comparison_reaches_tests, List.length_eq_zero.mp h]

/-- Concrete frame whose CS- condition has zero trials (and zero licks):
one CS+ trial with two licks. -/
def c7df : DF :=
  ⟨[⟨1, "Trial Start", 0, 1, 1⟩, ⟨3, "Odor On", 5, 1, 1⟩, ⟨7, "Lick", 6, 1, 1⟩,
    ⟨7, "Lick", 7, 1, 1⟩, ⟨2, "Trial End", 10, 1, 1⟩], true⟩

/-- Witness for `insufficient_data_skips_tests`: applied to `c7df`, whose
CS- condition has zero trials and zero licks. -/
theorem insufficient_data_skips_tests_witness :
    (∃ m, compute_session_metrics (fun _ _ => ((0 : ℚ), 0)) c7df = .ok m
      ∧ m.t_stat = none ∧ m.p_value = none)
    ∧ plot_trial_comparison_reaches_tests c7df = false := by
  have h := insufficient_data_skips_tests (fun _ _ => ((0 : ℚ), 0)) c7df
  exact ⟨h.1 (Or.inl (by decide)), h.2 (Or.inl (by decide))⟩

/-- Counterexample to CLAIM C7 as stated: on `c7df` — an input whose CS-
condition has zero trials — `compute_session_metrics` does not raise (return)
any error, let alone an `InsufficientDataError`: it returns the ordinary
metrics record with the t-test keys absent. -/
theorem no_insufficient_data_error_raised :
    compute_session_metrics (fun _ _ => ((0 : ℚ), 0)) c7df
      = .ok { total_trials := 1, cs_plus_trials := some 1, cs_minus_trials := some 0,
              total_licks := some 2, mean_licks_per_trial := some 2,
              median_licks_per_trial := some 2, licks_cs_plus := some 2,
              licks_cs_minus := some 0, t_stat := none, p_value := none,
              session_duration := some 10 }
    ∧ ∀ err : AnalysisError,
        compute_session_metrics (fun _ _ => ((0 : ℚ), 0)) c7df ≠ .error err := by
  have h1 : compute_session_metrics (fun _ _ => ((0 : ℚ), 0)) c7df
      = .ok { total_trials := 1, cs_plus_trials := some 1, cs_minus_trials := some 0,
              total_licks := some 2, mean_licks_per_trial := some 2,
              median_licks_per_trial := some 2, licks_cs_plus := some 2,
              licks_cs_minus := some 0, t_stat := none, p_value := none,
              session_duration := some 10 } := by
    simp only [compute_session_metrics, c7df]
    norm_num [groupSizesByTrial, sortNat, seriesMean, seriesMedian, maxQ, minQ,
      List.insertionSort, List.orderedInsert, List.dedup, List.filter, List.getD,
      max_def, min_def]
  refine ⟨h1, fun err hcontra => ?_⟩
  rw [h1] at hcontra
  exact Except.noConfusion hcontra

/-! ## Synthetic data generator (generate_test_data.py) -/

/-- Animal profiles accepted by `create_burst_params` and
`generate_dataset`. -/
inductive Profile where
  | normal
  | robust
  | anticipatory
  | non_learner
deriving DecidableEq

/-- Trial phases of the burst model. -/
inductive Phase where
  | baseline
  | anticipatory
  | reward
deriving DecidableEq

/-- Burst-model parameters (the dict built by `create_burst_params`). -/
structure BurstParams where
  burst_prob : ℚ
  burst_shape : ℚ
  burst_scale : ℚ
  intraburst_interval : ℚ
  interburst_interval : ℚ
  baseline_interval : ℚ
  jitter : ℚ
deriving DecidableEq

/-- The `base_params` dict of create_burst_params (generate_test_data.py
lines 91-119). -/
def base_params : Phase → BurstParams
  | .baseline => ⟨0.05, 1.2, 1.2, 0.12, 0.8, 0.5, 0.01⟩
  | .anticipatory => ⟨0.2, 1.5, 1.2, 0.10, 0.4, 0.3, 0.02⟩
  | .reward => ⟨0.6, 2.5, 1.0, 0.08, 0.3, 0.2, 0.01⟩

/-- create_burst_params (generate_test_data.py lines 76-153): the base
parameters of the phase, adjusted by profile-specific multipliers. -/
def create_burst_params (profile : Profile) (phase : Phase) : BurstParams :=
  let p := base_params phase
  match profile, phase with
  | .robust, .reward =>
    { p with burst_prob := p.burst_prob * 1.3, burst_shape := p.burst_shape * 1.2,
             intraburst_interval := p.intraburst_interval * 0.9 }
  | .robust, .anticipatory => { p with burst_prob := p.burst_prob * 1.2 }
  | .robust, .baseline => { p with burst_prob := p.burst_prob * 0.8 }
  | .anticipatory, .anticipatory =>
    { p with burst_prob := p.burst_prob * 1.5, burst_shape := p.burst_shape * 1.3 }
  | .anticipatory, .reward => { p with burst_prob := p.burst_prob * 0.9 }
  | .non_learner, .anticipatory => { p with burst_prob := p.burst_prob * 0.7 }
  | .non_learner, .reward =>
    { p with burst_prob := p.burst_prob * 0.7, burst_shape := p.burst_shape * 0.8 }
  | .non_learner, .baseline => { p with burst_prob := p.burst_prob * 1.5 }
  | _, _ => p

/-- One loop iteration's worth of entropy for `generate_lick_bursts`:
`r` is the `random.random()` gate, `g` is `int(np.random.gamma(shape,
scale))` (a non-negative integer, any value being possible), and `jit i` is
the unit draw of the i-th in-burst `random.uniform(-jitter, jitter)`, scaled
by the `jitter` parameter (any value in `[-1, 1]` being possible). -/
structure IterDraw where
  r : ℚ
  g : ℕ
  jit : ℕ → ℚ

/-- A realisable iteration draw: `random.random()` lies in `[0, 1)` and the
unit jitter draws lie in `[-1, 1]`. -/
def IterDraw.Valid (d : IterDraw) : Prop :=
  0 ≤ d.r ∧ d.r < 1 ∧ ∀ i, -1 ≤ d.jit i ∧ d.jit i ≤ 1

/-- The in-burst loop of generate_lick_bursts (generate_test_data.py lines
57-66): licks at `burst_start + i * intraburst_interval + jitter`, stopping
at the first lick past `end_time`.  `i` is the loop index, the second
argument the remaining count. -/
def burstLicks (burstStart : ℚ) (p : BurstParams) (endT : ℚ) (jit : ℕ → ℚ) :
    ℕ → ℕ → List ℚ
  | _, 0 => []
  | i, k + 1 =>
    let lick := burstStart + (i : ℚ) * p.intraburst_interval + p.jitter * jit i
    if lick ≤ endT then lick :: burstLicks burstStart p endT jit (i + 1) k else []

/-- The while-loop of generate_lick_bursts (generate_test_data.py lines
45-72), consuming one `IterDraw` per iteration.  Returns the emitted lick
times together with the unconsumed draws, or `none` if the supplied entropy
runs out before the loop terminates (the python global RNG never runs out;
`some` results are exactly the realisable runs). -/
def genBurstsAux (p : BurstParams) (endT : ℚ) : ℚ → List IterDraw →
    Option (List ℚ × List IterDraw)
  | cur, [] => if cur < endT then none else some ([], [])
  | cur, d :: ds =>
    if cur < endT then
      if d.r < p.burst_prob then
        let size := max 1 (min d.g 15)
        let licks := burstLicks cur p endT d.jit 0 size
        match genBurstsAux p endT
          (cur + (size : ℚ) * p.intraburst_interval + p.interburst_interval) ds with
        | none => none
        | some (more, rest) => some (licks ++ more, rest)
      else genBurstsAux p endT (cur + p.baseline_interval) ds
    else some ([], d :: ds)

/-- generate_lick_bursts (generate_test_data.py lines 30-74). -/
def generate_lick_bursts (start_time duration : ℚ) (p : BurstParams)
    (ds : List IterDraw) : Option (List ℚ × List IterDraw) :=
  genBurstsAux p (start_time + duration) start_time ds

/-- The entropy consumed by one trial of the generator: the unit draw of the
inter-trial `random.uniform(4.5, 5.5)` (the ITI is `4.5 + itiU`) and one
draw stream per burst phase. -/
structure TrialDraws where
  itiU : ℚ
  baseline : List IterDraw
  anticipatory : List IterDraw
  reward : List IterDraw
  postReward : List IterDraw
  postOdor : List IterDraw

/-- A realisable trial draw. -/
def TrialDraws.Valid (td : TrialDraws) : Prop :=
  0 ≤ td.itiU ∧ td.itiU ≤ 1
  ∧ (∀ d ∈ td.baseline, d.Valid) ∧ (∀ d ∈ td.anticipatory, d.Valid)
  ∧ (∀ d ∈ td.reward, d.Valid) ∧ (∀ d ∈ td.postReward, d.Valid)
  ∧ (∀ d ∈ td.postOdor, d.Valid)

/-- generate_trial_licking (generate_test_data.py lines 155-228): baseline
licks for 5 s before the odor, anticipatory licks during the odor (burst
probability scaled by 0.3 for CS-), then either reward-consumption plus
transition licks (CS+ with a reward time) or continued baseline licks
(burst probability scaled by 0.8 for CS-), all merged and sorted. -/
def generate_trial_licking (profile : Profile) (trial_type : ℕ)
    (odor_time odor_duration : ℚ) (reward_time : Option ℚ) (td : TrialDraws) :
    Option (List ℚ) :=
  match generate_lick_bursts (odor_time - 5) 5
      (create_burst_params profile .baseline) td.baseline with
  | none => none
  | some (baselineLicks, _) =>
    let antP0 := create_burst_params profile .anticipatory
    let antP := if trial_type = 2
      then { antP0 with burst_prob := antP0.burst_prob * 0.3 } else antP0
    match generate_lick_bursts odor_time odor_duration antP td.anticipatory with
    | none => none
    | some (antLicks, _) =>
      match trial_type, reward_time with
      | 1, some rt =>
        match generate_lick_bursts rt 3
            (create_burst_params profile .reward) td.reward with
        | none => none
        | some (rewardLicks, _) =>
          let postP0 := create_burst_params profile .anticipatory
          let postP := { postP0 with burst_prob := postP0.burst_prob * 0.7 }
          match generate_lick_bursts (rt + 3) 2 postP td.postReward with
          | none => none
          | some (postLicks, _) =>
            some (List.insertionSort (fun a b : ℚ => a ≤ b)
              (baselineLicks ++ antLicks ++ rewardLicks ++ postLicks))
      | _, _ =>
        let poP0 := create_burst_params profile .baseline
        let poP := if trial_type = 2
          then { poP0 with burst_prob := poP0.burst_prob * 0.8 } else poP0
        match generate_lick_bursts (odor_time + odor_duration) 5 poP td.postOdor with
        | none => none
        | some (poLicks, _) =>
          some (List.insertionSort (fun a b : ℚ => a ≤ b)
            (baselineLicks ++ antLicks ++ poLicks))

/-- Event-row constructor used by generate_dataset: the name column is the
EVENT_NAMES lookup of the code. -/
def mkEv (code : ℕ) (ts : ℚ) (tn tt : ℕ) : Ev :=
  ⟨code, EVENT_NAMES code, ts, tn, tt⟩

/-- The per-trial rows appended by generate_dataset (generate_test_data.py
lines 248-329), in append order: TrialStart, OdorOn, OdorOff, the reward
pair for CS+ trials (RewardOn at odor-off, RewardOff 0.5 s later), the lick
rows, and TrialEnd. -/
def trial_events (tn tt : ℕ) (startT odorOn odorOff endT : ℚ)
    (licks : List ℚ) : List Ev :=
  [mkEv 1 startT tn tt, mkEv 3 odorOn tn tt, mkEv 4 odorOff tn tt]
    ++ (if tt = 1 then [mkEv 5 odorOff tn tt, mkEv 6 (odorOff + 0.5) tn tt] else [])
    ++ licks.map (fun t => mkEv 7 t tn tt)
    ++ [mkEv 2 endT tn tt]

/-- Trial-end rule of generate_test_data.py line 322:
`max(lick_times) + 1.0 if lick_times else odor_off_time + 5.0`. -/
def trialEnd (odorOff : ℚ) (licks : List ℚ) : ℚ :=
  match maxQ licks with
  | some m => m + 1
  | none => odorOff + 5

/-- One iteration of the trial loop of generate_dataset (generate_test_data.py
lines 248-332): the odor comes on `4.5 + itiU` seconds after the trial start,
stays on 2 s; CS+ trials are rewarded at odor-off; the lick times come from
generate_trial_licking; the trial ends per `trialEnd`, which is also the next
trial's start time. -/
def genTrial (profile : Profile) (tn tt : ℕ) (startT : ℚ) (td : TrialDraws) :
    Option (List Ev × ℚ) :=
  let odorOn := startT + (4.5 + td.itiU)
  let odorOff := odorOn + 2
  match generate_trial_licking profile tt odorOn 2
      (if tt = 1 then some odorOff else none) td with
  | none => none
  | some licks =>
    let endT := trialEnd odorOff licks
    some (trial_events tn tt startT odorOn odorOff endT licks, endT)

/-- The trial loop of generate_dataset: `enumerate(trial_sequence, 1)` with
`current_time` threaded through. -/
def genTrialsAux (profile : Profile) (td : ℕ → TrialDraws) :
    List ℕ → ℕ → ℚ → Option (List Ev)
  | [], _, _ => some []
  | tt :: rest, idx, cur =>
    match genTrial profile (idx + 1) tt cur (td idx) with
    | none => none
    | some (evs, endT) =>
      match genTrialsAux profile td rest (idx + 1) endT with
      | none => none
      | some more => some (evs ++ more)

/-- The entropy of a whole generator run: the shuffled trial-type sequence
(the output of `random.shuffle`) and a trial-indexed supply of trial
draws. -/
structure DatasetDraws where
  shuffled : List ℕ
  td : ℕ → TrialDraws

/-- A realisable dataset draw. -/
def DatasetDraws.Valid (d : DatasetDraws) : Prop := ∀ i, (d.td i).Valid

/-- The balanced pre-shuffle trial sequence of generate_dataset
(generate_test_data.py lines 237-238): `num_trials // 2` copies of
`[1, 2]`. -/
def balanced_sequence (num_trials : ℕ) : List ℕ :=
  (List.replicate (num_trials / 2) [1, 2]).flatten

/-- generate_dataset (generate_test_data.py lines 230-344): all trial rows in
sequence, then sorted by timestamp (`df.sort_values('timestamp')`; the claims
below are invariant under the tie-breaking order, so a stable sort models
it). -/
def generate_dataset (profile : Profile) (d : DatasetDraws) : Option (List Ev) :=
  match genTrialsAux profile d.td d.shuffled 0 0 with
  | none => none
  | some evs => some (List.insertionSort (fun a b : Ev => a.timestamp ≤ b.timestamp) evs)

/-- Timestamps of the events of trial `tn` with event code `code` in a
frame (the groupings `df[(df['event_code'] == c) & (df['trial_number'] ==
t)]['timestamp']` that every analysis consumer uses). -/
def trial_event_times (evs : List Ev) (tn code : ℕ) : List ℚ :=
  (evs.filter (fun e => decide (e.trial_number = tn ∧ e.event_code = code))).map
    (fun e => e.timestamp)

/-! ## Structural lemmas about generated trials -/

lemma trial_number_of_mem_trial_events {tn tt : ℕ} {s o f en : ℚ} {licks : List ℚ}
    {e : Ev} (he : e ∈ trial_events tn tt s o f en licks) : e.trial_number = tn := by
  rw [trial_events] at he
  rcases List.mem_append.mp he with h12 | hend
  · rcases List.mem_append.mp h12 with h1 | hlick
    · rcases List.mem_append.mp h1 with hhead | hrew
      · simp only [List.mem_cons, List.not_mem_nil, or_false] at hhead
        rcases hhead with rfl | rfl | rfl <;> rfl
      · by_cases htt : tt = 1
        · rw [if_pos htt] at hrew
          simp only [List.mem_cons, List.not_mem_nil, or_false] at hrew
          rcases hrew with rfl | rfl <;> rfl
        · rw [if_neg htt] at hrew
          exact absurd hrew (List.not_mem_nil e)
    · obtain ⟨t, -, rfl⟩ := List.mem_map.mp hlick
      rfl
  · simp only [List.mem_cons, List.not_mem_nil, or_false] at hend
    rw [hend]
    rfl

lemma trial_event_times_append (l1 l2 : List Ev) (tn c : ℕ) :
    trial_event_times (l1 ++ l2) tn c
      = trial_event_times l1 tn c ++ trial_event_times l2 tn c := by
  simp [trial_event_times, List.filter_append]

lemma times_block_ne {tn' tn : ℕ} (hne : tn' ≠ tn) (tt : ℕ) (s o f en : ℚ)
    (licks : List ℚ) (c : ℕ) :
    trial_event_times (trial_events tn' tt s o f en licks) tn c = [] := by
  rw [trial_event_times]
  have hfil : (trial_events tn' tt s o f en licks).filter
      (fun e => decide (e.trial_number = tn ∧ e.event_code = c)) = [] := by
    rw [List.filter_eq_nil_iff]
    intro e he
    simp only [decide_eq_true_eq]
    rintro ⟨h1, -⟩
    exact hne (by rw [← trial_number_of_mem_trial_events he, h1])
  rw [hfil]
  rfl

lemma times_block_start (tn tt : ℕ) (s o f en : ℚ) (licks : List ℚ) :
    trial_event_times (trial_events tn tt s o f en licks) tn 1 = [s] := by
  by_cases htt : tt = 1 <;>
    simp [trial_event_times, trial_events, mkEv, htt, List.filter_append, List.filter_map, Function.comp]

lemma times_block_odor_on (tn tt : ℕ) (s o f en : ℚ) (licks : List ℚ) :
    trial_event_times (trial_events tn tt s o f en licks) tn 3 = [o] := by
  by_cases htt : tt = 1 <;>
    simp [trial_event_times, trial_events, mkEv, htt, List.filter_append, List.filter_map, Function.comp]

lemma times_block_odor_off (tn tt : ℕ) (s o f en : ℚ) (licks : List ℚ) :
    trial_event_times (trial_events tn tt s o f en licks) tn 4 = [f] := by
  by_cases htt : tt = 1 <;>
    simp [trial_event_times, trial_events, mkEv, htt, List.filter_append, List.filter_map, Function.comp]

lemma times_block_end (tn tt : ℕ) (s o f en : ℚ) (licks : List ℚ) :
    trial_event_times (trial_events tn tt s o f en licks) tn 2 = [en] := by
  by_cases htt : tt = 1 <;>
    simp [trial_event_times, trial_events, mkEv, htt, List.filter_append, List.filter_map, Function.comp]

lemma times_block_reward (tn tt : ℕ) (s o f en : ℚ) (licks : List ℚ) :
    trial_event_times (trial_events tn tt s o f en licks) tn 5
      = (if tt = 1 then [f] else []) := by
  by_cases htt : tt = 1 <;>
    simp [trial_event_times, trial_events, mkEv, htt, List.filter_append, List.filter_map, Function.comp]

lemma times_block_licks (tn tt : ℕ) (s o f en : ℚ) (licks : List ℚ) :
    trial_event_times (trial_events tn tt s o f en licks) tn 7 = licks := by
  rw [trial_event_times, trial_events]
  rw [List.filter_append, List.filter_append, List.filter_append,
    List.map_append, List.map_append, List.map_append]
  have h1 : ([mkEv 1 s tn tt, mkEv 3 o tn tt, mkEv 4 f tn tt]).filter
      (fun e => decide (e.trial_number = tn ∧ e.event_code = 7)) = [] := by
    simp [mkEv]
  have h2 : ((if tt = 1 then [mkEv 5 f tn tt, mkEv 6 (f + 0.5) tn tt] else [])).filter
      (fun e => decide (e.trial_number = tn ∧ e.event_code = 7)) = [] := by
    by_cases htt : tt = 1 <;> simp [htt, mkEv]
  have h4 : ([mkEv 2 en tn tt]).filter
      (fun e => decide (e.trial_number = tn ∧ e.event_code = 7)) = [] := by
    simp [mkEv]
  have h3 : ((licks.map (fun t => mkEv 7 t tn tt))).filter
      (fun e => decide (e.trial_number = tn ∧ e.event_code = 7))
      = licks.map (fun t => mkEv 7 t tn tt) := by
    rw [List.filter_eq_self]
    intro e he
    obtain ⟨t, -, rfl⟩ := List.mem_map.mp he
    simp [mkEv]
  rw [h1, h2, h3, h4]
  simp only [List.map_nil, List.nil_append, List.append_nil, List.map_map]
  show List.map (fun t : ℚ => t) licks = licks
  simp

lemma genTrial_eq_some {profile : Profile} {tn tt : ℕ} {startT : ℚ}
    {td : TrialDraws} {blockEvs : List Ev} {endT : ℚ}
    (h : genTrial profile tn tt startT td = some (blockEvs, endT)) :
    ∃ licks, generate_trial_licking profile tt (startT + (4.5 + td.itiU)) 2
        (if tt = 1 then some (startT + (4.5 + td.itiU) + 2) else none) td = some licks
      ∧ endT = trialEnd (startT + (4.5 + td.itiU) + 2) licks
      ∧ blockEvs = trial_events tn tt startT (startT + (4.5 + td.itiU))
          (startT + (4.5 + td.itiU) + 2) endT licks := by
  simp only [genTrial] at h
  rcases hlick : generate_trial_licking profile tt (startT + (4.5 + td.itiU)) 2
      (if tt = 1 then some (startT + (4.5 + td.itiU) + 2) else none) td with _ | licks
  · rw [hlick] at h
    exact absurd h (by simp)
  · rw [hlick] at h
    simp only [Option.some.injEq, Prod.mk.injEq] at h
    refine ⟨licks, rfl, h.2.symm, ?_⟩
    rw [← h.2]
    exact h.1.symm

lemma trial_events_code1_count (tn tt : ℕ) (s o f en : ℚ) (licks : List ℚ) :
    ((trial_events tn tt s o f en licks).filter
      (fun e => decide (e.event_code = 1))).length = 1 := by
  by_cases htt : tt = 1 <;>
    simp [trial_events, mkEv, htt, List.filter_append, List.filter_map, Function.comp]

lemma genTrialsAux_code1_count (profile : Profile) (td : ℕ → TrialDraws) :
    ∀ (list : List ℕ) (idx : ℕ) (cur : ℚ) (evs : List Ev),
      genTrialsAux profile td list idx cur = some evs →
      (evs.filter (fun e => decide (e.event_code = 1))).length = list.length := by
  intro list
  induction list with
  | nil =>
    intro idx cur evs h
    simp only [genTrialsAux, Option.some.injEq] at h
    subst h
    rfl
  | cons tt rest ih =>
    intro idx cur evs h
    rw [genTrialsAux] at h
    rcases hgt : genTrial profile (idx + 1) tt cur (td idx) with _ | ⟨blockEvs, endT⟩
    · rw [hgt] at h
      exact absurd h (by simp)
    · rw [hgt] at h
      dsimp only at h
      rcases hrest : genTrialsAux profile td rest (idx + 1) endT with _ | more
      · rw [hrest] at h
        exact absurd h (by simp)
      · rw [hrest] at h
        simp only [Option.some.injEq] at h
        subst h
        obtain ⟨licks, -, -, hblock⟩ := genTrial_eq_some hgt
        rw [List.filter_append, List.length_append, hblock,
          trial_events_code1_count, ih (idx + 1) endT more hrest]
        simp only [List.length_cons]
        omega

lemma genTrialsAux_code3_exists (profile : Profile) (td : ℕ → TrialDraws) :
    ∀ (list : List ℕ) (idx : ℕ) (cur : ℚ) (evs : List Ev),
      genTrialsAux profile td list idx cur = some evs →
      ∀ t, idx + 1 ≤ t → t ≤ idx + list.length →
        ∃ e ∈ evs, e.event_code = 3 ∧ e.trial_number = t := by
  intro list
  induction list with
  | nil =>
    intro idx cur evs h t h1 h2
    simp only [List.length_nil] at h2
    omega
  | cons tt rest ih =>
    intro idx cur evs h t h1 h2
    rw [genTrialsAux] at h
    rcases hgt : genTrial profile (idx + 1) tt cur (td idx) with _ | ⟨blockEvs, endT⟩
    · rw [hgt] at h
      exact absurd h (by simp)
    · rw [hgt] at h
      dsimp only at h
      rcases hrest : genTrialsAux profile td rest (idx + 1) endT with _ | more
      · rw [hrest] at h
        exact absurd h (by simp)
      · rw [hrest] at h
        simp only [Option.some.injEq] at h
        subst h
        obtain ⟨licks, -, -, hblock⟩ := genTrial_eq_some hgt
        by_cases ht : t = idx + 1
        · subst ht
          refine ⟨mkEv 3 (cur + (4.5 + (td idx).itiU)) (idx + 1) tt,
            List.mem_append_left _ ?_, rfl, rfl⟩
          rw [hblock, trial_events]
          exact List.mem_append_left _ (List.mem_append_left _
            (List.mem_append_left _ (by simp)))
        · obtain ⟨e, he, hc⟩ := ih (idx + 1) endT more hrest t (by omega)
            (by simp only [List.length_cons] at h2; omega)
          exact ⟨e, List.mem_append_right _ he, hc⟩

lemma balanced_sequence_length (n : ℕ) : (balanced_sequence n).length = 2 * (n / 2) := by
  simp [balanced_sequence]
  omega

/-- CLAIM C1 (amended).  For every profile and requested trial count `n`,
any successful generator run whose shuffled sequence is a permutation of the
balanced sequence yields exactly `2 * (n / 2)` trials — exactly `n` when `n`
is even, `n - 1` when `n` is odd — and every one of those trials contains a
StimulusOn (odor-on) event, so no trial is incomplete. -/
theorem generator_roundtrip_trial_count :
    ∀ (profile : Profile) (n : ℕ) (d : DatasetDraws) (df : List Ev),
      d.shuffled.Perm (balanced_sequence n) →
      generate_dataset profile d = some df →
      (df.filter (fun e => decide (e.event_code = 1))).length = 2 * (n / 2)
      ∧ ∀ t, 1 ≤ t → t ≤ 2 * (n / 2) →
          ∃ e ∈ df, e.event_code = 3 ∧ e.trial_number = t := by
  intro profile n d df hperm hgen
  rw [generate_dataset] at hgen
  rcases haux : genTrialsAux profile d.td d.shuffled 0 0 with _ | evs
  · rw [haux] at hgen
    exact absurd hgen (by simp)
  · rw [haux] at hgen
    simp only [Option.some.injEq] at hgen
    subst hgen
    have hsort := List.perm_insertionSort (fun a b : Ev => a.timestamp ≤ b.timestamp) evs
    have hlen : d.shuffled.length = 2 * (n / 2) := by
      rw [hperm.length_eq, balanced_sequence_length]
    constructor
    · have hc := genTrialsAux_code1_count profile d.td d.shuffled 0 0 evs haux
      have hpf := (hsort.filter (fun e => decide (e.event_code = 1))).length_eq
      rw [hpf, hc, hlen]
    · intro t h1 h2
      obtain ⟨e, he, hc3, htn⟩ := genTrialsAux_code3_exists profile d.td d.shuffled 0 0
        evs haux t (by omega) (by omega)
      exact ⟨e, hsort.mem_iff.mpr he, hc3, htn⟩

lemma genTrialsAux_trial_lb (profile : Profile) (td : ℕ → TrialDraws) :
    ∀ (list : List ℕ) (idx : ℕ) (cur : ℚ) (evs : List Ev),
      genTrialsAux profile td list idx cur = some evs →
      ∀ e ∈ evs, idx + 1 ≤ e.trial_number := by
  intro list
  induction list with
  | nil =>
    intro idx cur evs h e he
    simp only [genTrialsAux, Option.some.injEq] at h
    subst h
    exact absurd he (List.not_mem_nil e)
  | cons tt rest ih =>
    intro idx cur evs h e he
    rw [genTrialsAux] at h
    rcases hgt : genTrial profile (idx + 1) tt cur (td idx) with _ | ⟨blockEvs, endT⟩
    · rw [hgt] at h
      exact absurd h (by simp)
    · rw [hgt] at h
      dsimp only at h
      rcases hrest : genTrialsAux profile td rest (idx + 1) endT with _ | more
      · rw [hrest] at h
        exact absurd h (by simp)
      · rw [hrest] at h
        simp only [Option.some.injEq] at h
        subst h
        obtain ⟨licks, -, -, hblock⟩ := genTrial_eq_some hgt
        rcases List.mem_append.mp he with hb | hm
        · rw [hblock] at hb
          rw [trial_number_of_mem_trial_events hb]
        · have := ih (idx + 1) endT more hrest e hm
          omega

lemma maxQ_none_iff (l : List ℚ) : maxQ l = none ↔ l = [] := by
  cases l with
  | nil => simp [maxQ]
  | cons x xs =>
    rw [maxQ]
    cases maxQ xs <;> simp

lemma maxQ_mem : ∀ (l : List ℚ) (m : ℚ), maxQ l = some m → m ∈ l := by
  intro l
  induction l with
  | nil =>
    intro m h
    exact absurd h (by simp [maxQ])
  | cons x xs ih =>
    intro m h
    rw [maxQ] at h
    rcases hx : maxQ xs with _ | m0
    · rw [hx] at h
      simp only [Option.some.injEq] at h
      rw [← h]
      exact List.mem_cons_self _ _
    · rw [hx] at h
      simp only [Option.some.injEq] at h
      rw [← h]
      rcases max_choice x m0 with hc | hc <;> rw [hc]
      · exact List.mem_cons_self _ _
      · exact List.mem_cons_of_mem _ (ih m0 hx)

lemma maxQ_ge : ∀ (l : List ℚ) (m : ℚ), maxQ l = some m → ∀ x ∈ l, x ≤ m := by
  intro l
  induction l with
  | nil =>
    intro m h
    exact absurd h (by simp [maxQ])
  | cons x xs ih =>
    intro m h y hy
    rw [maxQ] at h
    rcases hx : maxQ xs with _ | m0
    · rw [hx] at h
      simp only [Option.some.injEq] at h
      have hxs : xs = [] := (maxQ_none_iff xs).mp hx
      subst hxs
      simp only [List.mem_singleton] at hy
      rw [hy, ← h]
    · rw [hx] at h
      simp only [Option.some.injEq] at h
      rcases List.mem_cons.mp hy with rfl | hmem
      · rw [← h]
        exact le_max_left _ _
      · calc y ≤ m0 := ih m0 hx y hmem
          _ ≤ max x m0 := le_max_right _ _
          _ = m := h

lemma genTrialsAux_ordering (profile : Profile) (td : ℕ → TrialDraws)
    (hvalid : ∀ i, (td i).Valid) :
    ∀ (list : List ℕ) (idx : ℕ) (cur : ℚ) (evs : List Ev),
      genTrialsAux profile td list idx cur = some evs →
      ∀ (t : ℕ) (a o f e : ℚ),
        a ∈ trial_event_times evs t 1 → o ∈ trial_event_times evs t 3 →
        f ∈ trial_event_times evs t 4 → e ∈ trial_event_times evs t 2 →
        a ≤ o ∧ o ≤ f
        ∧ (∀ r ∈ trial_event_times evs t 5, f ≤ r)
        ∧ (f ≤ e ↔ (trial_event_times evs t 7 = []
            ∨ ∃ l ∈ trial_event_times evs t 7, f - 1 ≤ l)) := by
  intro list
  induction list with
  | nil =>
    intro idx cur evs h t a o f e ha ho hf he
    simp only [genTrialsAux, Option.some.injEq] at h
    subst h
    exact absurd ha (by simp [trial_event_times])
  | cons tt rest ih =>
    intro idx cur evs h t a o f e ha ho hf he
    rw [genTrialsAux] at h
    rcases hgt : genTrial profile (idx + 1) tt cur (td idx) with _ | ⟨blockEvs, endT⟩
    · rw [hgt] at h
      exact absurd h (by simp)
    · rw [hgt] at h
      dsimp only at h
      rcases hrest : genTrialsAux profile td rest (idx + 1) endT with _ | more
      · rw [hrest] at h
        exact absurd h (by simp)
      · rw [hrest] at h
        simp only [Option.some.injEq] at h
        subst h
        obtain ⟨licks, hlick, hend, hblock⟩ := genTrial_eq_some hgt
        by_cases ht : t = idx + 1
        · subst ht
          have hmore : ∀ c, trial_event_times more (idx + 1) c = [] := by
            intro c
            rw [trial_event_times]
            have hfil : more.filter
                (fun ev => decide (ev.trial_number = idx + 1 ∧ ev.event_code = c)) = [] := by
              rw [List.filter_eq_nil_iff]
              intro ev hev
              simp only [decide_eq_true_eq]
              rintro ⟨h1, -⟩
              have := genTrialsAux_trial_lb profile td rest (idx + 1) endT more hrest ev hev
              omega
            rw [hfil]
            rfl
          rw [trial_event_times_append, hmore 1, List.append_nil, hblock,
            times_block_start] at ha
          rw [trial_event_times_append, hmore 3, List.append_nil, hblock,
            times_block_odor_on] at ho
          rw [trial_event_times_append, hmore 4, List.append_nil, hblock,
            times_block_odor_off] at hf
          rw [trial_event_times_append, hmore 2, List.append_nil, hblock,
            times_block_end] at he
          simp only [List.mem_singleton] at ha ho hf he
          subst ha
          subst ho
          subst hf
          subst he
          obtain ⟨hu0, hu1, -⟩ := hvalid idx
          refine ⟨by linarith, by linarith, ?_, ?_⟩
          · intro r hr
            rw [trial_event_times_append, hmore 5, List.append_nil, hblock,
              times_block_reward] at hr
            by_cases htt : tt = 1
            · rw [if_pos htt] at hr
              simp only [List.mem_singleton] at hr
              rw [hr]
            · rw [if_neg htt] at hr
              exact absurd hr (List.not_mem_nil r)
          · rw [trial_event_times_append, hmore 7, List.append_nil, hblock,
              times_block_licks, hend, trialEnd]
            rcases hmax : maxQ licks with _ | m
            · rw [(maxQ_none_iff licks).mp hmax]
              dsimp only
              constructor
              · intro _
                exact Or.inl rfl
              · intro _
                linarith
            · dsimp only
              have hmem := maxQ_mem licks m hmax
              have hge := maxQ_ge licks m hmax
              constructor
              · intro hle
                exact Or.inr ⟨m, hmem, by linarith⟩
              · rintro (hnil | ⟨l, hl, hll⟩)
                · rw [hnil] at hmem
                  exact absurd hmem (List.not_mem_nil m)
                · have := hge l hl
                  linarith
        · have hblock0 : ∀ c, trial_event_times blockEvs t c = [] := by
            intro c
            rw [hblock]
            exact times_block_ne (fun hc => ht hc.symm) tt _ _ _ _ _ c
          rw [trial_event_times_append, hblock0 1, List.nil_append] at ha
          rw [trial_event_times_append, hblock0 3, List.nil_append] at ho
          rw [trial_event_times_append, hblock0 4, List.nil_append] at hf
          rw [trial_event_times_append, hblock0 2, List.nil_append] at he
          have hres := ih (idx + 1) endT more hrest t a o f e ha ho hf he
          refine ⟨hres.1, hres.2.1, ?_, ?_⟩
          · intro r hr
            rw [trial_event_times_append, hblock0 5, List.nil_append] at hr
            exact hres.2.2.1 r hr
          · rw [trial_event_times_append, hblock0 7, List.nil_append]
            exact hres.2.2.2

/-- CLAIM C2 (amended).  In every generated stream (over realisable draws),
each trial satisfies TrialStart ≤ StimulusOn ≤ StimulusOff, every RewardOn
of the trial is at or after StimulusOff; but StimulusOff ≤ TrialEnd holds
exactly when the trial has no licks or has some lick at or after
StimulusOff − 1 s (TrialEnd is max lick time + 1 when licks exist), so
TrialEnd can precede StimulusOff — see the counterexample. -/
theorem trial_timestamp_ordering :
    ∀ (profile : Profile) (d : DatasetDraws) (df : List Ev) (t : ℕ)
      (tStart tOn tOff tEnd : ℚ),
      d.Valid →
      generate_dataset profile d = some df →
      tStart ∈ trial_event_times df t 1 → tOn ∈ trial_event_times df t 3 →
      tOff ∈ trial_event_times df t 4 → tEnd ∈ trial_event_times df t 2 →
      tStart ≤ tOn ∧ tOn ≤ tOff
      ∧ (∀ r ∈ trial_event_times df t 5, tOff ≤ r)
      ∧ (tOff ≤ tEnd ↔ (trial_event_times df t 7 = []
          ∨ ∃ l ∈ trial_event_times df t 7, tOff - 1 ≤ l)) := by
  intro profile d df t tStart tOn tOff tEnd hvalid hgen hs ho hf he
  rw [generate_dataset] at hgen
  rcases haux : genTrialsAux profile d.td d.shuffled 0 0 with _ | evs
  · rw [haux] at hgen
    exact absurd hgen (by simp)
  · rw [haux] at hgen
    simp only [Option.some.injEq] at hgen
    subst hgen
    have hsort := List.perm_insertionSort (fun a b : Ev => a.timestamp ≤ b.timestamp) evs
    have hperm : ∀ c,
        List.Perm
          (trial_event_times
            (List.insertionSort (fun a b : Ev => a.timestamp ≤ b.timestamp) evs) t c)
          (trial_event_times evs t c) := by
      intro c
      exact (hsort.filter _).map _
    have hres := genTrialsAux_ordering profile d.td hvalid d.shuffled 0 0 evs haux
      t tStart tOn tOff tEnd ((hperm 1).mem_iff.mp hs) ((hperm 3).mem_iff.mp ho)
      ((hperm 4).mem_iff.mp hf) ((hperm 2).mem_iff.mp he)
    refine ⟨hres.1, hres.2.1, ?_, ?_⟩
    · intro r hr
      exact hres.2.2.1 r ((hperm 5).mem_iff.mp hr)
    · constructor
      · intro hle
        rcases hres.2.2.2.mp hle with hnil | ⟨l, hl, hll⟩
        · left
          apply List.Perm.eq_nil
          have h7 := hperm 7
          rw [hnil] at h7
          exact h7
        · exact Or.inr ⟨l, (hperm 7).mem_iff.mpr hl, hll⟩
      · rintro (hnil | ⟨l, hl, hll⟩)
        · apply hres.2.2.2.mpr
          left
          apply List.Perm.eq_nil
          have h7 := (hperm 7).symm
          rw [hnil] at h7
          exact h7
        · exact hres.2.2.2.mpr (Or.inr ⟨l, (hperm 7).mem_iff.mp hl, hll⟩)

/-! ## Concrete generator runs -/

lemma noburst_run (p : BurstParams) (d : IterDraw) (hbp : p.burst_prob ≤ d.r)
    (_hbi : 0 < p.baseline_interval) :
    ∀ (k : ℕ) (cur endT : ℚ), endT ≤ cur + (k : ℚ) * p.baseline_interval →
      ∃ rest, genBurstsAux p endT cur (List.replicate k d) = some ([], rest) := by
  intro k
  induction k with
  | zero =>
    intro cur endT h
    simp only [Nat.cast_zero, zero_mul, add_zero] at h
    refine ⟨[], ?_⟩
    rw [List.replicate_zero, genBurstsAux, if_neg (not_lt.mpr h)]
  | succ n ih =>
    intro cur endT h
    by_cases hc : cur < endT
    · have hrec : endT ≤ (cur + p.baseline_interval) + (n : ℚ) * p.baseline_interval := by
        push_cast at h
        linarith
      obtain ⟨rest, hrest⟩ := ih (cur + p.baseline_interval) endT hrec
      refine ⟨rest, ?_⟩
      rw [List.replicate_succ, genBurstsAux, if_pos hc, if_neg (not_lt.mpr hbp)]
      exact hrest
    · refine ⟨d :: List.replicate n d, ?_⟩
      rw [List.replicate_succ, genBurstsAux, if_neg hc]

/-- A quiet iteration draw: the gate draw 0.99 never starts a burst for any
of the profiles' burst probabilities. -/
def d99 : IterDraw := ⟨99/100, 0, fun _ => 0⟩

/-- An iteration draw that immediately starts a burst of size 1 with zero
jitter (gate draw 0, gamma draw 0). -/
def dBurst : IterDraw := ⟨0, 0, fun _ => 0⟩

lemma d99_valid : d99.Valid := by
  refine ⟨by norm_num [d99, IterDraw.Valid], by norm_num [d99], fun i => ?_⟩
  constructor <;> norm_num [d99]

lemma dBurst_valid : dBurst.Valid := by
  refine ⟨by norm_num [dBurst], by norm_num [dBurst], fun i => ?_⟩
  constructor <;> norm_num [dBurst]

/-- Trial draws that never burst in any phase. -/
def tdQuiet : TrialDraws :=
  ⟨0, List.replicate 20 d99, List.replicate 20 d99, List.replicate 20 d99,
    List.replicate 20 d99, List.replicate 20 d99⟩

lemma tdQuiet_valid : tdQuiet.Valid := by
  refine ⟨by norm_num [tdQuiet], by norm_num [tdQuiet], ?_, ?_, ?_, ?_, ?_⟩ <;>
  · intro d hd
    have hrep : d = d99 := List.eq_of_mem_replicate hd
    rw [hrep]
    exact d99_valid

/-- Trial draws whose baseline phase opens with a single size-1 burst and is
quiet afterwards. -/
def tdBurst1 : TrialDraws :=
  ⟨0, dBurst :: List.replicate 20 d99, List.replicate 20 d99, List.replicate 20 d99,
    List.replicate 20 d99, List.replicate 20 d99⟩

lemma tdBurst1_valid : tdBurst1.Valid := by
  refine ⟨by norm_num [tdBurst1], by norm_num [tdBurst1], ?_, ?_, ?_, ?_, ?_⟩ <;>
  · intro d hd
    simp only [tdBurst1, List.mem_cons] at hd
    first
    | (rcases hd with hd | hd
       · rw [hd]
         exact dBurst_valid
       · have hrep : d = d99 := List.eq_of_mem_replicate hd
         rw [hrep]
         exact d99_valid)
    | (have hrep : d = d99 := List.eq_of_mem_replicate hd
       rw [hrep]
       exact d99_valid)

lemma burst_once_run (p : BurstParams) (k : ℕ) (cur endT : ℚ)
    (hlt : cur < endT)
    (hr : (0 : ℚ) < p.burst_prob)
    (hterm : endT ≤ cur + 1 * p.intraburst_interval + p.interburst_interval
      + (k : ℚ) * p.baseline_interval)
    (hbp : p.burst_prob ≤ 99/100)
    (hbi : 0 < p.baseline_interval) :
    ∃ rest, genBurstsAux p endT cur (dBurst :: List.replicate k d99)
      = some ([cur], rest) := by
  obtain ⟨rest, hrest⟩ := noburst_run p d99 (by exact hbp) hbi k
    (cur + 1 * p.intraburst_interval + p.interburst_interval) endT hterm
  refine ⟨rest, ?_⟩
  rw [genBurstsAux, if_pos hlt, if_pos (show dBurst.r < p.burst_prob from hr)]
  have hsz : max 1 (min dBurst.g 15) = 1 := by norm_num [dBurst]
  have hlk : burstLicks cur p endT dBurst.jit 0 1 = [cur] := by
    rw [burstLicks]
    have harg : cur + ((0 : ℕ) : ℚ) * p.intraburst_interval + p.jitter * dBurst.jit 0
        = cur := by
      norm_num [dBurst]
    rw [harg, if_pos (le_of_lt hlt), burstLicks]
  simp only [hsz, hlk, Nat.cast_one]
  rw [hrest]
  rfl

lemma quiet_licking_cs_plus (ot rt : ℚ) :
    generate_trial_licking Profile.normal 1 ot 2 (some rt) tdQuiet = some [] := by
  obtain ⟨r1, h1⟩ := noburst_run (create_burst_params Profile.normal Phase.baseline) d99
    (by norm_num [create_burst_params, base_params, d99])
    (by norm_num [create_burst_params, base_params]) 20 (ot - 5) (ot - 5 + 5)
    (by norm_num [create_burst_params, base_params] <;> linarith)
  obtain ⟨r2, h2⟩ := noburst_run (create_burst_params Profile.normal Phase.anticipatory) d99
    (by norm_num [create_burst_params, base_params, d99])
    (by norm_num [create_burst_params, base_params]) 20 ot (ot + 2)
    (by norm_num [create_burst_params, base_params] <;> linarith)
  obtain ⟨r3, h3⟩ := noburst_run (create_burst_params Profile.normal Phase.reward) d99
    (by norm_num [create_burst_params, base_params, d99])
    (by norm_num [create_burst_params, base_params]) 20 rt (rt + 3)
    (by norm_num [create_burst_params, base_params] <;> linarith)
  obtain ⟨r4, h4⟩ := noburst_run
    { create_burst_params Profile.normal Phase.anticipatory with
      burst_prob := (create_burst_params Profile.normal Phase.anticipatory).burst_prob * 0.7 }
    d99
    (by norm_num [create_burst_params, base_params, d99])
    (by norm_num [create_burst_params, base_params]) 20 (rt + 3) (rt + 3 + 2)
    (by norm_num [create_burst_params, base_params] <;> linarith)
  rw [generate_trial_licking]
  rw [show tdQuiet.baseline = List.replicate 20 d99 from rfl]
  rw [generate_lick_bursts, h1]
  dsimp only
  rw [if_neg (by norm_num : ¬(1 = 2))]
  rw [show tdQuiet.anticipatory = List.replicate 20 d99 from rfl]
  rw [generate_lick_bursts, h2]
  dsimp only
  rw [show tdQuiet.reward = List.replicate 20 d99 from rfl]
  rw [generate_lick_bursts, h3]
  dsimp only
  rw [show tdQuiet.postReward = List.replicate 20 d99 from rfl]
  rw [generate_lick_bursts, h4]
  dsimp only
  rfl

lemma quiet_licking_cs_minus (ot : ℚ) :
    generate_trial_licking Profile.normal 2 ot 2 none tdQuiet = some [] := by
  obtain ⟨r1, h1⟩ := noburst_run (create_burst_params Profile.normal Phase.baseline) d99
    (by norm_num [create_burst_params, base_params, d99])
    (by norm_num [create_burst_params, base_params]) 20 (ot - 5) (ot - 5 + 5)
    (by norm_num [create_burst_params, base_params] <;> linarith)
  obtain ⟨r2, h2⟩ := noburst_run
    { create_burst_params Profile.normal Phase.anticipatory with
      burst_prob := (create_burst_params Profile.normal Phase.anticipatory).burst_prob * 0.3 }
    d99
    (by norm_num [create_burst_params, base_params, d99])
    (by norm_num [create_burst_params, base_params]) 20 ot (ot + 2)
    (by norm_num [create_burst_params, base_params] <;> linarith)
  obtain ⟨r3, h3⟩ := noburst_run
    { create_burst_params Profile.normal Phase.baseline with
      burst_prob := (create_burst_params Profile.normal Phase.baseline).burst_prob * 0.8 }
    d99
    (by norm_num [create_burst_params, base_params, d99])
    (by norm_num [create_burst_params, base_params]) 20 (ot + 2) (ot + 2 + 5)
    (by norm_num [create_burst_params, base_params] <;> linarith)
  rw [generate_trial_licking]
  rw [show tdQuiet.baseline = List.replicate 20 d99 from rfl]
  rw [generate_lick_bursts, h1]
  dsimp only
  rw [if_pos (rfl : (2 : ℕ) = 2)]
  rw [show tdQuiet.anticipatory = List.replicate 20 d99 from rfl]
  rw [generate_lick_bursts, h2]
  dsimp only
  rw [if_pos (rfl : (2 : ℕ) = 2)]
  rw [show tdQuiet.postOdor = List.replicate 20 d99 from rfl]
  rw [generate_lick_bursts, h3]
  dsimp only
  rfl

lemma burst_licking_cs_minus (ot : ℚ) :
    generate_trial_licking Profile.normal 2 ot 2 none tdBurst1 = some [ot - 5] := by
  obtain ⟨r1, h1⟩ := burst_once_run (create_burst_params Profile.normal Phase.baseline) 20
    (ot - 5) (ot - 5 + 5) (by linarith)
    (by norm_num [create_burst_params, base_params])
    (by norm_num [create_burst_params, base_params] <;> linarith)
    (by norm_num [create_burst_params, base_params])
    (by norm_num [create_burst_params, base_params])
  obtain ⟨r2, h2⟩ := noburst_run
    { create_burst_params Profile.normal Phase.anticipatory with
      burst_prob := (create_burst_params Profile.normal Phase.anticipatory).burst_prob * 0.3 }
    d99
    (by norm_num [create_burst_params, base_params, d99])
    (by norm_num [create_burst_params, base_params]) 20 ot (ot + 2)
    (by norm_num [create_burst_params, base_params] <;> linarith)
  obtain ⟨r3, h3⟩ := noburst_run
    { create_burst_params Profile.normal Phase.baseline with
      burst_prob := (create_burst_params Profile.normal Phase.baseline).burst_prob * 0.8 }
    d99
    (by norm_num [create_burst_params, base_params, d99])
    (by norm_num [create_burst_params, base_params]) 20 (ot + 2) (ot + 2 + 5)
    (by norm_num [create_burst_params, base_params] <;> linarith)
  rw [generate_trial_licking]
  rw [show tdBurst1.baseline = dBurst :: List.replicate 20 d99 from rfl]
  rw [generate_lick_bursts, h1]
  dsimp only
  rw [if_pos (rfl : (2 : ℕ) = 2)]
  rw [show tdBurst1.anticipatory = List.replicate 20 d99 from rfl]
  rw [generate_lick_bursts, h2]
  dsimp only
  rw [if_pos (rfl : (2 : ℕ) = 2)]
  rw [show tdBurst1.postOdor = List.replicate 20 d99 from rfl]
  rw [generate_lick_bursts, h3]
  dsimp only
  simp [List.insertionSort, List.orderedInsert]

def dsQuiet : DatasetDraws := ⟨[1, 2], fun _ => tdQuiet⟩

lemma dsQuiet_valid : dsQuiet.Valid := fun _ => tdQuiet_valid

def dsBurst : DatasetDraws := ⟨[2, 1], fun i => if i = 0 then tdBurst1 else tdQuiet⟩

lemma dsBurst_valid : dsBurst.Valid := by
  intro i
  show (if i = 0 then tdBurst1 else tdQuiet).Valid
  by_cases hi : i = 0
  · rw [if_pos hi]
    exact tdBurst1_valid
  · rw [if_neg hi]
    exact tdQuiet_valid

lemma genTrial_quiet_cs_plus (tn : ℕ) (s : ℚ) :
    genTrial Profile.normal tn 1 s tdQuiet
      = some (trial_events tn 1 s (s + (4.5 + tdQuiet.itiU)) (s + (4.5 + tdQuiet.itiU) + 2)
          (s + (4.5 + tdQuiet.itiU) + 2 + 5) [],
        s + (4.5 + tdQuiet.itiU) + 2 + 5) := by
  rw [genTrial]
  dsimp only
  rw [show (if (1 : ℕ) = 1 then some (s + (4.5 + tdQuiet.itiU) + 2) else none)
      = some (s + (4.5 + tdQuiet.itiU) + 2) from if_pos rfl]
  rw [quiet_licking_cs_plus]
  rfl

lemma genTrial_quiet_cs_minus (tn : ℕ) (s : ℚ) :
    genTrial Profile.normal tn 2 s tdQuiet
      = some (trial_events tn 2 s (s + (4.5 + tdQuiet.itiU)) (s + (4.5 + tdQuiet.itiU) + 2)
          (s + (4.5 + tdQuiet.itiU) + 2 + 5) [],
        s + (4.5 + tdQuiet.itiU) + 2 + 5) := by
  rw [genTrial]
  dsimp only
  rw [show (if (2 : ℕ) = 1 then some (s + (4.5 + tdQuiet.itiU) + 2) else none)
      = none from if_neg (by norm_num)]
  rw [quiet_licking_cs_minus]
  rfl

lemma genTrial_burst_cs_minus (tn : ℕ) (s : ℚ) :
    genTrial Profile.normal tn 2 s tdBurst1
      = some (trial_events tn 2 s (s + (4.5 + tdBurst1.itiU)) (s + (4.5 + tdBurst1.itiU) + 2)
          (s + (4.5 + tdBurst1.itiU) - 5 + 1) [s + (4.5 + tdBurst1.itiU) - 5],
        s + (4.5 + tdBurst1.itiU) - 5 + 1) := by
  rw [genTrial]
  dsimp only
  rw [show (if (2 : ℕ) = 1 then some (s + (4.5 + tdBurst1.itiU) + 2) else none)
      = none from if_neg (by norm_num)]
  rw [burst_licking_cs_minus]
  rfl

/-- The unsorted event rows of the fully quiet two-trial run (trial 1 CS+,
trial 2 CS-, no licks anywhere). -/
def quietEvs : List Ev :=
  trial_events 1 1 0 (9/2) (13/2) (23/2) []
    ++ (trial_events 2 2 (23/2) 16 18 23 [] ++ [])

lemma genTrialsAux_quiet :
    genTrialsAux Profile.normal dsQuiet.td [1, 2] 0 0 = some quietEvs := by
  rw [genTrialsAux, show dsQuiet.td 0 = tdQuiet from rfl, genTrial_quiet_cs_plus]
  dsimp only
  rw [genTrialsAux, show dsQuiet.td 1 = tdQuiet from rfl, genTrial_quiet_cs_minus]
  dsimp only
  rw [genTrialsAux]
  rw [quietEvs]
  norm_num [tdQuiet]

/-- The generated (sorted) frame of the quiet run. -/
def dfQuiet : List Ev :=
  List.insertionSort (fun a b : Ev => a.timestamp ≤ b.timestamp) quietEvs

lemma generate_quiet : generate_dataset Profile.normal dsQuiet = some dfQuiet := by
  rw [generate_dataset, show dsQuiet.shuffled = [1, 2] from rfl, genTrialsAux_quiet]
  rfl

/-- The unsorted event rows of the run in which trial 1 (CS-) has exactly one
baseline lick at −1/2 s and trial 2 (CS+) is quiet: trial 1 ends at 1/2 s,
before its own odor-off at 13/2 s. -/
def burstEvs : List Ev :=
  trial_events 1 2 0 (9/2) (13/2) (1/2) [-(1/2)]
    ++ (trial_events 2 1 (1/2) 5 7 12 [] ++ [])

lemma genTrialsAux_burst :
    genTrialsAux Profile.normal dsBurst.td [2, 1] 0 0 = some burstEvs := by
  rw [genTrialsAux, show dsBurst.td 0 = tdBurst1 from rfl, genTrial_burst_cs_minus]
  dsimp only
  rw [genTrialsAux, show dsBurst.td 1 = tdQuiet from rfl, genTrial_quiet_cs_plus]
  dsimp only
  rw [genTrialsAux]
  rw [burstEvs]
  norm_num [tdBurst1, tdQuiet]

/-- The generated (sorted) frame of the bursty run. -/
def dfBurst : List Ev :=
  List.insertionSort (fun a b : Ev => a.timestamp ≤ b.timestamp) burstEvs

lemma generate_burst : generate_dataset Profile.normal dsBurst = some dfBurst := by
  rw [generate_dataset, show dsBurst.shuffled = [2, 1] from rfl, genTrialsAux_burst]
  rfl

/-- Counterexample to CLAIM C2 as stated: on the realisable draw `dsBurst`
the generator emits a trial whose TrialEnd (1/2 s) precedes its own
StimulusOff (13/2 s): the only lick of the trial falls in the pre-odor
baseline, so `max(licks) + 1` lands before odor-off. -/
theorem trial_end_precedes_stimulus_off :
    ∃ df : List Ev, generate_dataset Profile.normal dsBurst = some df
      ∧ dsBurst.Valid
      ∧ (13/2 : ℚ) ∈ trial_event_times df 1 4
      ∧ (1/2 : ℚ) ∈ trial_event_times df 1 2
      ∧ ¬ ((13/2 : ℚ) ≤ (1/2 : ℚ)) := by
  refine ⟨dfBurst, generate_burst, dsBurst_valid, ?_, ?_, by norm_num⟩
  · have hperm : List.Perm (trial_event_times dfBurst 1 4) (trial_event_times burstEvs 1 4) :=
      ((List.perm_insertionSort (fun a b : Ev => a.timestamp ≤ b.timestamp) burstEvs).filter
        _).map _
    apply hperm.mem_iff.mpr
    rw [burstEvs, trial_event_times_append, trial_event_times_append, times_block_odor_off,
      times_block_ne (by norm_num : (2 : ℕ) ≠ 1)]
    simp [trial_event_times]
  · have hperm : List.Perm (trial_event_times dfBurst 1 2) (trial_event_times burstEvs 1 2) :=
      ((List.perm_insertionSort (fun a b : Ev => a.timestamp ≤ b.timestamp) burstEvs).filter
        _).map _
    apply hperm.mem_iff.mpr
    rw [burstEvs, trial_event_times_append, trial_event_times_append, times_block_end,
      times_block_ne (by norm_num : (2 : ℕ) ≠ 1)]
    simp [trial_event_times]

lemma times_dfQuiet (c : ℕ) (x : ℚ) (hx : x ∈ trial_event_times quietEvs 1 c) :
    x ∈ trial_event_times dfQuiet 1 c := by
  have hperm : List.Perm (trial_event_times dfQuiet 1 c) (trial_event_times quietEvs 1 c) :=
    ((List.perm_insertionSort (fun a b : Ev => a.timestamp ≤ b.timestamp) quietEvs).filter
      _).map _
  exact hperm.mem_iff.mpr hx

/-- Witness for `trial_timestamp_ordering`: trial 1 of the quiet run, with
TrialStart 0, StimulusOn 9/2, StimulusOff 13/2, TrialEnd 23/2. -/
theorem trial_timestamp_ordering_witness :
    (0 : ℚ) ≤ 9/2 ∧ (9/2 : ℚ) ≤ 13/2
    ∧ (∀ r ∈ trial_event_times dfQuiet 1 5, (13/2 : ℚ) ≤ r)
    ∧ ((13/2 : ℚ) ≤ 23/2 ↔ (trial_event_times dfQuiet 1 7 = []
        ∨ ∃ l ∈ trial_event_times dfQuiet 1 7, (13/2 : ℚ) - 1 ≤ l)) := by
  apply trial_timestamp_ordering Profile.normal dsQuiet dfQuiet 1 0 (9/2) (13/2) (23/2)
    dsQuiet_valid generate_quiet
  · apply times_dfQuiet
    rw [quietEvs, trial_event_times_append, trial_event_times_append, times_block_start,
      times_block_ne (by norm_num : (2 : ℕ) ≠ 1)]
    simp [trial_event_times]
  · apply times_dfQuiet
    rw [quietEvs, trial_event_times_append, trial_event_times_append, times_block_odor_on,
      times_block_ne (by norm_num : (2 : ℕ) ≠ 1)]
    simp [trial_event_times]
  · apply times_dfQuiet
    rw [quietEvs, trial_event_times_append, trial_event_times_append, times_block_odor_off,
      times_block_ne (by norm_num : (2 : ℕ) ≠ 1)]
    simp [trial_event_times]
  · apply times_dfQuiet
    rw [quietEvs, trial_event_times_append, trial_event_times_append, times_block_end,
      times_block_ne (by norm_num : (2 : ℕ) ≠ 1)]
    simp [trial_event_times]

/-- Counterexample to CLAIM C1 as stated: with requested trial count `n = 3`
(odd), the realisable run `dsQuiet` (whose shuffled sequence is exactly the
balanced sequence for 3 trials) produces 2 trials, not 3 — the generator
builds `num_trials // 2` CS+/CS- pairs. -/
theorem generator_odd_count_mismatch :
    dsQuiet.shuffled.Perm (balanced_sequence 3)
    ∧ dsQuiet.Valid
    ∧ (generate_dataset Profile.normal dsQuiet).map
        (fun df => (df.filter (fun e => decide (e.event_code = 1))).length) = some 2
    ∧ (2 : ℕ) ≠ 3 := by
  refine ⟨List.Perm.refl _, dsQuiet_valid, ?_, by decide⟩
  rw [generate_quiet]
  simp only [Option.map_some']
  have h1 := ((List.perm_insertionSort (fun a b : Ev => a.timestamp ≤ b.timestamp)
    quietEvs).filter (fun e => decide (e.event_code = 1))).length_eq
  rw [dfQuiet, h1, quietEvs, List.filter_append, List.filter_append, List.length_append,
    List.length_append, trial_events_code1_count, trial_events_code1_count]
  rfl

/-- Witness for `generator_roundtrip_trial_count`: the quiet run with `n = 2`
has exactly `2 * (2 / 2) = 2` trials and trial 1 contains an odor-on. -/
theorem generator_roundtrip_trial_count_witness :
    (dfQuiet.filter (fun e => decide (e.event_code = 1))).length = 2 * (2 / 2)
    ∧ ∃ e ∈ dfQuiet, e.event_code = 3 ∧ e.trial_number = 1 := by
  have hp : dsQuiet.shuffled.Perm (balanced_sequence 2) := List.Perm.refl _
  have h := generator_roundtrip_trial_count Profile.normal 2 dsQuiet dfQuiet hp generate_quiet
  exact ⟨h.1, h.2 1 (by norm_num) (by norm_num)⟩

/-- CLAIM C9.  Determinism of the generator with respect to its entropy: (1)
the lick-burst loop is determined by the draws it actually consumes — any
successful run consumes a prefix of the draw list, and re-running on that
prefix followed by any other tail reproduces exactly the same lick times —
and (2) two generator runs whose shuffled sequences agree and whose
per-trial draws agree on every trial index actually used produce identical
event streams.  Given a seeded random source the draws are a function of the
seed, so equal seeds and inputs give equal outputs. -/
theorem generator_deterministic :
    (∀ (p : BurstParams) (endT cur : ℚ) (ds : List IterDraw) (licks : List ℚ)
        (rest : List IterDraw),
      genBurstsAux p endT cur ds = some (licks, rest) →
      ∃ pre, ds = pre ++ rest
        ∧ ∀ tail, genBurstsAux p endT cur (pre ++ tail) = some (licks, tail))
    ∧ (∀ (profile : Profile) (d1 d2 : DatasetDraws),
      d1.shuffled = d2.shuffled →
      (∀ i, i < d1.shuffled.length → d1.td i = d2.td i) →
      generate_dataset profile d1 = generate_dataset profile d2) := by
  constructor
  · intro p endT
    have main : ∀ (ds : List IterDraw) (cur : ℚ) (licks : List ℚ) (rest : List IterDraw),
        genBurstsAux p endT cur ds = some (licks, rest) →
        ∃ pre, ds = pre ++ rest
          ∧ ∀ tail, genBurstsAux p endT cur (pre ++ tail) = some (licks, tail) := by
      intro ds
      induction ds with
      | nil =>
        intro cur licks rest h
        rw [genBurstsAux] at h
        by_cases hc : cur < endT
        · rw [if_pos hc] at h
          exact absurd h (by simp)
        · rw [if_neg hc] at h
          simp only [Option.some.injEq, Prod.mk.injEq] at h
          refine ⟨[], by simp [← h.2], ?_⟩
          intro tail
          rw [List.nil_append]
          cases tail with
          | nil =>
            rw [genBurstsAux, if_neg hc, ← h.1]
          | cons d ds' =>
            rw [genBurstsAux, if_neg hc, ← h.1]
      | cons d ds ih =>
        intro cur licks rest h
        rw [genBurstsAux] at h
        by_cases hc : cur < endT
        · rw [if_pos hc] at h
          by_cases hb : d.r < p.burst_prob
          · rw [if_pos hb] at h
            dsimp only at h
            rcases hrec : genBurstsAux p endT
                (cur + ((max 1 (min d.g 15) : ℕ) : ℚ) * p.intraburst_interval
                  + p.interburst_interval) ds with _ | ⟨l2, r2⟩
            · rw [hrec] at h
              exact absurd h (by simp)
            · rw [hrec] at h
              simp only [Option.some.injEq, Prod.mk.injEq] at h
              obtain ⟨pre, hpre, hdet⟩ := ih _ l2 r2 hrec
              refine ⟨d :: pre, by simp [hpre, ← h.2], ?_⟩
              intro tail
              rw [List.cons_append, genBurstsAux, if_pos hc, if_pos hb]
              dsimp only
              rw [hdet tail, ← h.1]
          · rw [if_neg hb] at h
            obtain ⟨pre, hpre, hdet⟩ := ih _ licks rest h
            refine ⟨d :: pre, by simp [hpre], ?_⟩
            intro tail
            rw [List.cons_append, genBurstsAux, if_pos hc, if_neg hb]
            exact hdet tail
        · rw [if_neg hc] at h
          simp only [Option.some.injEq, Prod.mk.injEq] at h
          refine ⟨[], by simp [← h.2], ?_⟩
          intro tail
          rw [List.nil_append]
          cases tail with
          | nil =>
            rw [genBurstsAux, if_neg hc, ← h.1]
          | cons d' ds' =>
            rw [genBurstsAux, if_neg hc, ← h.1]
    intro cur ds licks rest h
    exact main ds cur licks rest h
  · intro profile d1 d2 hsh htd
    have main : ∀ (list : List ℕ) (idx : ℕ) (cur : ℚ),
        (∀ i, idx ≤ i → i < idx + list.length → d1.td i = d2.td i) →
        genTrialsAux profile d1.td list idx cur = genTrialsAux profile d2.td list idx cur := by
      intro list
      induction list with
      | nil =>
        intro idx cur _
        rfl
      | cons tt rest ih =>
        intro idx cur hag
        have h0 : d1.td idx = d2.td idx := hag idx (le_refl idx) (by simp)
        have ihe : ∀ cur' : ℚ,
            genTrialsAux profile d1.td rest (idx + 1) cur'
              = genTrialsAux profile d2.td rest (idx + 1) cur' := by
          intro cur'
          apply ih (idx + 1) cur'
          intro i hi1 hi2
          apply hag i (by omega)
          simp only [List.length_cons]
          omega
        rw [genTrialsAux, genTrialsAux, h0]
        rcases hgt : genTrial profile (idx + 1) tt cur (d2.td idx) with _ | ⟨evs, endT⟩
        · rfl
        · dsimp only
          rw [ihe endT]
    rw [generate_dataset, generate_dataset, hsh]
    rw [main d2.shuffled 0 0 ?_]
    intro i _ hi
    apply htd
    rw [hsh]
    simpa using hi

/-- Dataset draws equal to `dsQuiet` on the two used trial indices but
different beyond them. -/
def dsQuiet2 : DatasetDraws := ⟨[1, 2], fun i => if i < 2 then tdQuiet else tdBurst1⟩

/-- Witness for `generator_deterministic`: a concrete two-step quiet
burst-loop run re-run on its consumed prefix plus a fresh tail, and the
quiet generator run compared against draws that differ only past the used
indices. -/
theorem generator_deterministic_witness :
    genBurstsAux (create_burst_params Profile.normal Phase.baseline) 1 0 [d99, d99, dBurst]
      = some ([], [dBurst])
    ∧ generate_dataset Profile.normal dsQuiet = generate_dataset Profile.normal dsQuiet2 := by
  constructor
  · have hrun : genBurstsAux (create_burst_params Profile.normal Phase.baseline) 1 0 [d99, d99]
        = some ([], []) := by
      rw [genBurstsAux, if_pos (by norm_num : (0 : ℚ) < 1),
        if_neg (by norm_num [create_burst_params, base_params, d99] :
          ¬(d99.r < (create_burst_params Profile.normal Phase.baseline).burst_prob))]
      rw [genBurstsAux,
        if_pos (by norm_num [create_burst_params, base_params] :
          (0 : ℚ) + (create_burst_params Profile.normal Phase.baseline).baseline_interval < 1),
        if_neg (by norm_num [create_burst_params, base_params, d99] :
          ¬(d99.r < (create_burst_params Profile.normal Phase.baseline).burst_prob))]
      rw [genBurstsAux,
        if_neg (by norm_num [create_burst_params, base_params] :
          ¬((0 : ℚ) + (create_burst_params Profile.normal Phase.baseline).baseline_interval
            + (create_burst_params Profile.normal Phase.baseline).baseline_interval < 1))]
    obtain ⟨pre, hpre, hdet⟩ := generator_deterministic.1
      (create_burst_params Profile.normal Phase.baseline) 1 0 [d99, d99] [] [] hrun
    have hpre2 : pre = [d99, d99] := by simpa using hpre.symm
    have hres := hdet [dBurst]
    rw [hpre2] at hres
    exact hres
  · apply generator_deterministic.2
    · rfl
    · intro i hi
      show tdQuiet = (if i < 2 then tdQuiet else tdBurst1)
      rw [if_pos (show i < 2 from hi)]
